import Mathlib

/-!
Shallow embedding of the `use-lite-form` form-state core
(`src/form/instance.ts`, `src/form/list.tsx`, `src/form/use-form-history.ts`).

JavaScript values are modelled by the JSON-like type `Val`; lodash `get` /
`set` are modelled over paths of string keys and numeric indices; the
`Instance` class becomes a pure state-transition system `FormState`, with
the lodash `debounce` on `triggerOnChangeDebounced` modelled by a `pending`
slot (the armed timer together with its most recent arguments) and an
explicit `flushDebounce` step (the timer firing after the debounce window).
-/

/-- JavaScript runtime values as they occur in this library: `undefined`,
`null`, strings, numbers, booleans, arrays, and plain objects (modelled as
association lists in key-insertion order). -/
inductive Val where
  | undefined : Val
  | vnull : Val
  | str : String → Val
  | num : Int → Val
  | bool : Bool → Val
  | arr : List Val → Val
  | obj : List (String × Val) → Val

/-- A path segment: a string key or a numeric array index
(`Instance.Path = (string | number)[]`). -/
inductive Seg where
  | key : String → Seg
  | idx : Nat → Seg
deriving DecidableEq, Repr

/-- lodash `isUndefined`. -/
def isUndefined : Val → Bool
  | .undefined => true
  | _ => false

/-- lodash `isNil`: `null` or `undefined`. -/
def isNilV : Val → Bool
  | .undefined => true
  | .vnull => true
  | _ => false

/-- lodash `isObject` restricted to the values occurring here: arrays and
plain objects (functions do not occur as stored values in this library). -/
def isObjectV : Val → Bool
  | .arr _ => true
  | .obj _ => true
  | _ => false

/-- lodash `isPlainObject`. -/
def isPlainObjectV : Val → Bool
  | .obj _ => true
  | _ => false

/-- lodash `isArray`. -/
def isArrV : Val → Bool
  | .arr _ => true
  | _ => false

/-- JavaScript truthiness for the values of this library. -/
def truthy : Val → Bool
  | .undefined => false
  | .vnull => false
  | .str s => s ≠ ""
  | .num n => n ≠ 0
  | .bool b => b
  | .arr _ => true
  | .obj _ => true

/-- lodash `size` on containers (0 on anything else). -/
def sizeV : Val → Nat
  | .arr xs => xs.length
  | .obj fs => fs.length
  | _ => 0

/-- A container is empty (lodash `isEmpty` on arrays / plain objects). -/
def isEmptyContainer (v : Val) : Bool := sizeV v == 0

/-- lodash `every(xs, isNil)` for an array value (`true` on non-arrays,
matching `every`'s vacuous truth on empty/non-collections). -/
def allNilArr : Val → Bool
  | .arr xs => xs.all isNilV
  | _ => true

/-- lodash `every(values(obj), isNil)` for an object value. -/
def hasOnlyNullFields : Val → Bool
  | .obj fs => fs.all (fun kv => isNilV kv.2)
  | _ => true

/-- Decimal digits of a natural number (fuel-based so the kernel can
evaluate it; the fuel `n + 1` always suffices). -/
def natReprAux : Nat → Nat → List Char
  | 0, _ => []
  | fuel + 1, n =>
      if n < 10 then [Char.ofNat (48 + n)]
      else natReprAux fuel (n / 10) ++ [Char.ofNat (48 + n % 10)]

/-- The decimal numeral of a natural number (JavaScript number-to-string
for the non-negative integers used as path segments). -/
def natRepr (n : Nat) : String := String.mk (natReprAux (n + 1) n)

/-- The numeric value of a decimal digit character. -/
def digitVal (c : Char) : Option Nat :=
  if 48 ≤ c.toNat && c.toNat ≤ 57 then some (c.toNat - 48) else none

/-- Parse a list of decimal digits. -/
def parseNatAux : List Char → Nat → Option Nat
  | [], acc => some acc
  | c :: t, acc =>
      match digitVal c with
      | some d => parseNatAux t (acc * 10 + d)
      | none => none

/-- Parse a string of decimal digits (none on the empty string or any
non-digit). -/
def parseNat (s : String) : Option Nat :=
  match s.data with
  | [] => none
  | l => parseNatAux l 0

/-- JavaScript `String.prototype.startsWith` (the library built-in is not
kernel-reducible, so it is modelled on the character lists). -/
def strStartsWith (s pat : String) : Bool :=
  pat.data.isPrefixOf s.data

/-- lodash `isIndex` on a path segment after `toKey`: numeric segments are
indices, string segments only when they are a canonical decimal numeral. -/
def canonIdx (k : String) : Option Nat :=
  match parseNat k with
  | some n => if natRepr n = k then some n else none
  | none => none

/-- Whether a segment is treated as an array index by lodash (`isIndex`). -/
def segIsIndex : Seg → Bool
  | .idx _ => true
  | .key k => (canonIdx k).isSome

/-- lodash `toKey`: the property-name string of a segment. -/
def segStr : Seg → String
  | .key k => k
  | .idx n => natRepr n

/-- The dotted key of a path, `path.join('.')`. -/
def joinPath (p : List Seg) : String :=
  String.intercalate "." (p.map segStr)

/-- First-match lookup in an object's field list; `undefined` when the key
is absent (JavaScript property read). -/
def lookupField : List (String × Val) → String → Val
  | [], _ => .undefined
  | (k', v) :: t, k => if k' = k then v else lookupField t k

/-- Property write on an object's field list: overwrite the first occurrence
of the key in place, else append (JavaScript property write order). -/
def setField : List (String × Val) → String → Val → List (String × Val)
  | [], k, v => [(k, v)]
  | (k', v') :: t, k, v => if k' = k then (k, v) :: t else (k', v') :: setField t k v

/-- Array write at an index: in-range replaces, out-of-range pads with
holes (`undefined`) up to the index (JavaScript sparse-array assignment). -/
def padSet (xs : List Val) (n : Nat) (v : Val) : List Val :=
  if n < xs.length then xs.set n v
  else xs ++ List.replicate (n - xs.length) Val.undefined ++ [v]

/-- One step of lodash `baseGet`: read the property named by a segment.
Numeric segments on objects read the stringified key (`toKey`); canonical
numeric string keys on arrays read the index. Non-index string properties
of arrays are not modelled (they do not occur in this library). -/
def childOf : Val → Seg → Val
  | .obj fs, .key k => lookupField fs k
  | .obj fs, .idx n => lookupField fs (natRepr n)
  | .arr xs, .idx n => (xs.get? n).getD .undefined
  | .arr xs, .key k =>
      match canonIdx k with
      | some n => (xs.get? n).getD .undefined
      | none => .undefined
  | _, _ => .undefined

/-- lodash `baseGet`: walk the path; an empty path yields `undefined`. -/
def getSegs : Val → List Seg → Val
  | v, [] => v
  | v, s :: rest => getSegs (childOf v s) rest

/-- lodash `get(object, path)` without default: `undefined` on the empty
path (as in lodash), else the walk. -/
def lget (v : Val) (p : List Seg) : Val :=
  match p with
  | [] => .undefined
  | _ => getSegs v p

/-- lodash `get(object, path, defaultValue)`: the default replaces an
`undefined` result. -/
def lgetD (v : Val) (p : List Seg) (d : Val) : Val :=
  match lget v p with
  | .undefined => d
  | r => r

/-- One assignment step of lodash `baseSet` (`assignValue`): objects store
under the segment's key string; arrays store at numeric (or canonical
numeric string) indices, padding with holes. Non-index string properties
of arrays and writes into non-containers are not modelled. -/
def assignSeg : Val → Seg → Val → Val
  | .obj fs, s, v => .obj (setField fs (segStr s) v)
  | .arr xs, .idx n, v => .arr (padSet xs n v)
  | .arr xs, .key k, v =>
      match canonIdx k with
      | some n => .arr (padSet xs n v)
      | none => .arr xs
  | w, _, _ => w

/-- The fresh container lodash `baseSet` creates for a missing/non-object
child: an array when the next segment is an index, else a plain object. -/
def freshFor : List Seg → Val
  | s :: _ => if segIsIndex s then .arr [] else .obj []
  | [] => .obj []

/-- The body of lodash `baseSet`: walk the path, materializing missing
containers, and assign the value at the last segment. -/
def setSegs : Val → List Seg → Val → Val
  | w, [], _ => w
  | w, [s], v => assignSeg w s v
  | w, s :: rest, v =>
      let c := childOf w s
      let c' := if isObjectV c then c else freshFor rest
      assignSeg w s (setSegs c' rest v)

/-- lodash `set(object, path, value)` (on a deep clone, so modelled
functionally): a non-container root is returned unchanged. -/
def lset (w : Val) (p : List Seg) (v : Val) : Val :=
  if isObjectV w then setSegs w p v else w

mutual
/-- `deepClean` from `src/form/instance.ts`: removes null/undefined residue
from an errors tree. Empty containers at the root are returned as-is; in
arrays, nil items are kept (to preserve indices) and object items cleaned
recursively, and a non-root array that ends up empty or all-nil becomes
`null`; in objects, nil-valued and empty-plain-object keys are deleted,
empty or all-nil array values become `null`, container values are cleaned
recursively (deleting keys whose cleaned value is nil or an empty /
all-null plain object), and a non-root object left empty or with only null
values becomes `null`. -/
def deepClean (v : Val) (isRoot : Bool) : Val :=
  if isRoot && isObjectV v && isEmptyContainer v then v
  else if isNilV v then v
  else
    match v with
    | .arr xs =>
        let processed := cleanItems xs
        let allNil := processed.all isNilV
        if !isRoot && (allNil || processed.length == 0) then .vnull
        else .arr processed
    | .obj fs =>
        let fs' := cleanFields fs
        let onlyNull := fs'.all (fun kv => isNilV kv.2)
        if !isRoot && onlyNull && fs'.length > 0 then .vnull
        else if !isRoot && fs'.length == 0 then .vnull
        else .obj fs'
    | w => w
termination_by structural v

/-- The array branch of `deepClean`: each item is kept as-is when nil or
primitive, and cleaned recursively (non-root) when it is a container. -/
def cleanItems : List Val → List Val
  | [] => []
  | x :: t =>
      (if isNilV x then x
       else if isObjectV x then deepClean x false
       else x) :: cleanItems t
termination_by structural xs => xs

/-- The object-key loop of `deepClean` (each iteration touches only its own
key, so the in-place loop is a per-field map/filter). -/
def cleanFields : List (String × Val) → List (String × Val)
  | [] => []
  | (k, v) :: t =>
      let rest := cleanFields t
      if isNilV v then rest
      else if isPlainObjectV v && isEmptyContainer v then rest
      else if isArrV v && isEmptyContainer v then (k, .vnull) :: rest
      else if isArrV v && allNilArr v then (k, .vnull) :: rest
      else if isObjectV v then
        let cleaned := deepClean v false
        if isNilV cleaned then rest
        else if isArrV cleaned && allNilArr cleaned then (k, .vnull) :: rest
        else if isPlainObjectV cleaned then
          if isEmptyContainer cleaned then rest
          else if hasOnlyNullFields cleaned && sizeV cleaned > 0 then rest
          else (k, cleaned) :: rest
        else (k, cleaned) :: rest
      else (k, v) :: rest
termination_by structural fs => fs
end

/-- `RequiredErrors.add`: a path key joins the set (JavaScript `Set`
semantics: no duplicates, insertion order). -/
def reqAdd (l : List String) (k : String) : List String :=
  if k ∈ l then l else l ++ [k]

/-- `RequiredErrors.has` on a joined key. -/
def reqHas (l : List String) (k : String) : Bool := k ∈ l

/-- `RequiredErrors.remove`: delete every member that `startsWith` the
joined key (plain string prefix, not dotted-path prefix), then the exact
key; the boolean reports whether anything was deleted. -/
def reqRemove (l : List String) (k : String) : List String × Bool :=
  let swept := l.filter (fun e => !(strStartsWith e k))
  let removed := l.any (fun e => strStartsWith e k)
  (swept.filter (fun e => e ≠ k), (decide (k ∈ swept) || removed))

/-- lodash `isString`. -/
def isStringV : Val → Bool
  | .str _ => true
  | _ => false

/-- lodash `isEmpty` on the value shapes of this library: empty strings and
empty containers are empty, and so are nil values, numbers and booleans. -/
def isEmptyLodash : Val → Bool
  | .str s => s.length == 0
  | .arr xs => xs.isEmpty
  | .obj fs => fs.isEmpty
  | _ => true

/-- `Instance.Action` (`src/form/instance.ts`). -/
inductive FAction where
  | CLEAR | CLEAR_ERRORS | INIT | REPLACE | HISTORY_REDO | HISTORY_REPLACE | HISTORY_UNDO | SET
deriving DecidableEq, Repr

/-- The string carried in the change-notification `action` field. -/
def actionName : FAction → String
  | .CLEAR => "CLEAR"
  | .CLEAR_ERRORS => "CLEAR_ERRORS"
  | .INIT => "INIT"
  | .REPLACE => "REPLACE"
  | .HISTORY_REDO => "HISTORY_REDO"
  | .HISTORY_REPLACE => "HISTORY_REPLACE"
  | .HISTORY_UNDO => "HISTORY_UNDO"
  | .SET => "SET"

/-- The snapshot payload `Instance.getPayload()` hands to listeners (the
self-referential `instance` field is omitted). -/
structure Payload where
  changed : Bool
  changesCount : Nat
  errors : Val
  errorsCount : Nat
  lastChange : Nat
  lastSubmit : Nat
  requiredErrorsCount : Nat
  value : Val

/-- The observable state of one `Instance`. `pending` models the armed
lodash-debounce timer of `triggerOnChangeDebounced` together with the
arguments of its most recent call; `notifications` is the log of payloads
actually fanned out to subscribers, in order. -/
structure FormState where
  value : Val
  errors : Val
  requiredErrors : List String
  cacheGet : List (String × Val)
  cacheError : List (String × Val)
  changed : Bool
  changesCount : Nat
  lastChange : Nat
  lastSubmit : Nat
  pending : Option (FAction × Bool)
  notifications : List (Payload × FAction × Bool)

/-- `Instance.errorsCount()`: lodash `size` of the errors tree root. -/
def errorsCountO (s : FormState) : Nat := sizeV s.errors

/-- `Instance.requiredErrorsCount()`. -/
def requiredErrorsCountO (s : FormState) : Nat := s.requiredErrors.length

/-- `Instance.getPayload()`. -/
def getPayload (s : FormState) : Payload :=
  { changed := s.changed
    changesCount := s.changesCount
    errors := s.errors
    errorsCount := errorsCountO s
    lastChange := s.lastChange
    lastSubmit := s.lastSubmit
    requiredErrorsCount := requiredErrorsCountO s
    value := s.value }

/-- `Instance.cacheFlush()`. -/
def cacheFlush (s : FormState) : FormState :=
  { s with cacheGet := [], cacheError := [] }

/-- `Instance.triggerOnChange`: bump `lastChange` to the current time,
flush both read caches, and hand the arguments to the debounced fan-out
(arming / re-arming the timer with these latest arguments). -/
def triggerOnChange (s : FormState) (a : FAction) (sil : Bool) (t : Nat) : FormState :=
  { cacheFlush s with lastChange := t, pending := some (a, sil) }

/-- The debounce timer of `triggerOnChangeDebounced` firing after the
10 ms window: bump `changesCount`, recompute `changed`, and fan the
consolidated snapshot payload out to the subscribers once, with the
latest arguments. A quiescent state (no armed timer) is unchanged. -/
def flushDebounce (s : FormState) : FormState :=
  match s.pending with
  | none => s
  | some (a, sil) =>
      let s' := { s with
        changesCount := s.changesCount + 1
        changed := s.lastChange > s.lastSubmit
        pending := none }
      { s' with notifications := s'.notifications ++ [(getPayload s', a, sil)] }

/-- `Instance.get(path, defaultValue)` for a non-nil path: serve the
per-path cache when it holds a non-`undefined` entry (keyed by the joined
path string), else read through lodash `get` and fill the cache. Returns
the read value together with the updated state. -/
def getO (s : FormState) (p : List Seg) (d : Val) : Val × FormState :=
  let cv := lookupField s.cacheGet (joinPath p)
  if isUndefined cv then
    let v := lgetD s.value p d
    (v, { s with cacheGet := setField s.cacheGet (joinPath p) v })
  else (cv, s)

/-- `Instance.getError(path)` for a present path: like `getO` but over the
errors tree, with `null` as the lodash-`get` default. -/
def getErrorO (s : FormState) (p : List Seg) : Val × FormState :=
  let cv := lookupField s.cacheError (joinPath p)
  if isUndefined cv then
    let v := lgetD s.errors p .vnull
    (v, { s with cacheError := setField s.cacheError (joinPath p) v })
  else (cv, s)

/-- `Instance.set(path, value, silent)`: immutable set-at-path into
`value`, then `triggerOnChange` tagged `SET`. -/
def setO (s : FormState) (p : List Seg) (v : Val) (sil : Bool) (t : Nat) : FormState :=
  triggerOnChange { s with value := lset s.value p v } .SET sil t

/-- `Instance.setError(path, value, silent, requiredError)`: an empty
string message returns the current state untouched; otherwise write the
message at the path, add the path to the required set when flagged, and
`triggerOnChange` tagged `SET`. -/
def setErrorO (s : FormState) (p : List Seg) (v : Val) (sil : Bool) (req : Bool) (t : Nat) :
    FormState :=
  if isStringV v && isEmptyLodash v then s
  else
    let s1 := { s with errors := lset s.errors p v }
    let s2 :=
      if req then { s1 with requiredErrors := reqAdd s1.requiredErrors (joinPath p) } else s1
    triggerOnChange s2 .SET sil t

/-- `Instance.unsetError(path, silent)`: null out the path in the errors
tree, `deepClean` the result, drop the path (and its `startsWith` matches)
from the required set, and `triggerOnChange` tagged `SET`. -/
def unsetErrorO (s : FormState) (p : List Seg) (sil : Bool) (t : Nat) : FormState :=
  triggerOnChange
    { s with
      errors := deepClean (lset s.errors p .vnull) true
      requiredErrors := (reqRemove s.requiredErrors (joinPath p)).1 }
    .SET sil t

/-- The `'REDO' | 'UNDO' | 'REPLACE'` argument of `Instance.historyAction`. -/
inductive HKind where
  | REDO | UNDO | REPLACE
deriving DecidableEq, Repr

/-- The `HISTORY_`-prefixed tag `historyAction` notifies with. -/
def historyTag : HKind → FAction
  | .REDO => .HISTORY_REDO
  | .REPLACE => .HISTORY_REPLACE
  | .UNDO => .HISTORY_UNDO

/-- `Instance.historyAction(action, value, silent)`: install the restored
value and `triggerOnChange` with the matching `HISTORY_`-prefixed tag. -/
def historyActionO (s : FormState) (k : HKind) (v : Val) (sil : Bool) (t : Nat) : FormState :=
  triggerOnChange { s with value := v } (historyTag k) sil t

instance : Inhabited Val := ⟨.undefined⟩

/-- The generic `move` of `src/form/list.tsx`: out-of-range or equal
indices return the array unchanged; otherwise the item at `moveIndex` is
relocated to `toIndex` by slicing (left-move when `moveIndex > toIndex`,
right-move when `moveIndex < toIndex`). -/
def moveList {α : Type} [Inhabited α] (a : List α) (moveIndex toIndex : Int) : List α :=
  let size : Int := a.length
  if moveIndex < 0 || size ≤ moveIndex || toIndex < 0 || size ≤ toIndex then a
  else
    let m := moveIndex.toNat
    let n := toIndex.toNat
    let item := a.getD m default
    if toIndex < moveIndex then
      a.take n ++ [item] ++ ((a.take m).drop n) ++ a.drop (m + 1)
    else if moveIndex < toIndex then
      a.take m ++ ((a.take (n + 1)).drop (m + 1)) ++ [item] ++ a.drop (n + 1)
    else a

/-- The `keyManager` ref of a `List`: the sparse key table (holes are
`none`, as JavaScript array holes read `undefined`) and the monotonically
increasing id counter. -/
structure KeyMgr where
  keys : List (Option Nat)
  id : Nat

/-- A JavaScript read `keys[index]`: `undefined` for holes and
out-of-range indices. -/
def keyAt (km : KeyMgr) (i : Nat) : Option Nat :=
  (km.keys.get? i).getD none

/-- Sparse-array assignment `keys[index] = id`. -/
def padSetK (xs : List (Option Nat)) (n : Nat) (v : Option Nat) : List (Option Nat) :=
  if n < xs.length then xs.set n v
  else xs ++ List.replicate (n - xs.length) none ++ [v]

/-- `getKey` of `src/form/list.tsx`: serve the memoized key at the index,
else mint the current id, store it at the index, and bump the counter. -/
def getKey (km : KeyMgr) (i : Nat) : Nat × KeyMgr :=
  match keyAt km i with
  | some k => (k, km)
  | none => (km.id, ⟨padSetK km.keys i (some km.id), km.id + 1⟩)

/-- The list items as a Lean list; the list operations of
`src/form/list.tsx` only ever spread arrays, so other shapes (which would
throw in JavaScript) are not modelled. -/
def asArr : Val → List Val
  | .arr xs => xs
  | _ => []

/-- A `List` binding: its key manager together with the form instance it
mutates through. -/
structure ListST where
  km : KeyMgr
  form : FormState

/-- `handleAdd` of `src/form/list.tsx`: falsy values are rejected with
key 0; an in-range `0 ≤ index ≤ size` inserts value and freshly minted key
at the index; any other index appends both. The minted key is returned. -/
def handleAddO (ls : ListST) (path : List Seg) (value : Val) (index : Int) (t : Nat) :
    Nat × ListST :=
  if !(truthy value) then (0, ls)
  else
    let (items, s1) := getO ls.form path (.arr [])
    let key := ls.km.id
    let id1 := ls.km.id + 1
    let itemsSize : Int := sizeV items
    if 0 ≤ index && index ≤ itemsSize then
      let n := index.toNat
      (key,
        { km := ⟨ls.km.keys.take n ++ [some key] ++ ls.km.keys.drop n, id1⟩
          form := setO s1 path (.arr ((asArr items).take n ++ [value] ++ (asArr items).drop n))
            false t })
    else
      (key,
        { km := ⟨ls.km.keys ++ [some key], id1⟩
          form := setO s1 path (.arr (asArr items ++ [value])) false t })

/-- `handleDelete` of `src/form/list.tsx`: read the items, clear the error
at `[...path, index]` (the preceding `form.requiredErrors.delete([...])`
call hands the base JavaScript `Set.delete` a fresh array object, which
never equals a stored string key, so it is a no-op), close the gap in the
key table with `reject`, and write back the items with the index
rejected. -/
def handleDeleteO (ls : ListST) (path : List Seg) (index : Nat) (t : Nat) : ListST :=
  let (items, s1) := getO ls.form path (.arr [])
  let s2 := unsetErrorO s1 (path ++ [Seg.idx index]) false t
  { km := ⟨ls.km.keys.eraseIdx index, ls.km.id⟩
    form := setO s2 path (.arr ((asArr items).eraseIdx index)) false t }

/-- `handleMove` of `src/form/list.tsx`: no-op on equal or out-of-range
indices; otherwise rotate the key table, read both endpoint errors and
required flags, clear both endpoint errors, re-set each truthy endpoint
error at the opposite endpoint (re-adding its required flag), and write
back the rotated items. -/
def handleMoveO (ls : ListST) (path : List Seg) (fro tgt : Int) (t : Nat) : ListST :=
  if fro = tgt then ls
  else
    let (items, s1) := getO ls.form path (.arr [])
    let itemsSize : Int := sizeV items
    if fro < 0 || itemsSize ≤ fro || tgt < 0 || itemsSize ≤ tgt then { ls with form := s1 }
    else
      let km1 : KeyMgr := ⟨moveList ls.km.keys fro tgt, ls.km.id⟩
      let pf := path ++ [Seg.idx fro.toNat]
      let pt := path ++ [Seg.idx tgt.toNat]
      let (fromError, s2) := getErrorO s1 pf
      let fromRequired := reqHas s2.requiredErrors (joinPath pf)
      let (toError, s3) := getErrorO s2 pt
      let toRequired := reqHas s3.requiredErrors (joinPath pt)
      let s4 := unsetErrorO s3 pf false t
      let s5 := unsetErrorO s4 pt false t
      let s6 :=
        if truthy fromError then
          let sa := setErrorO s5 pt fromError false false t
          if fromRequired then { sa with requiredErrors := reqAdd sa.requiredErrors (joinPath pt) }
          else sa
        else s5
      let s7 :=
        if truthy toError then
          let sa := setErrorO s6 pf toError false false t
          if toRequired then { sa with requiredErrors := reqAdd sa.requiredErrors (joinPath pf) }
          else sa
        else s6
      { km := km1, form := setO s7 path (.arr (moveList (asArr items) fro tgt)) false t }

/-- The externally owned undo/redo buffer of `useHistoryState`
(`use-good-hooks`, outside this repository). Modelled from the spec: "a
capacity-bounded stack of past Value snapshots"; the current snapshot plus
the stack of past ones (capacity eviction does not affect whether an
operation pushes). -/
structure HistBuf where
  cur : Val
  past : List Val

/-- The number of entries the history buffer holds. -/
def histEntryCount (h : HistBuf) : Nat := 1 + h.past.length

/-- Modelled from the spec: `historyActions.set` (from `use-good-hooks`,
outside this repository) pushes the value as a new history entry. -/
def histSet (h : HistBuf) (v : Val) : HistBuf := ⟨v, h.cur :: h.past⟩

/-- Modelled from the spec: `historyActions.replace` (from
`use-good-hooks`, outside this repository) must "update the *current*
history slot in place, not push a new one". -/
def histReplace (h : HistBuf) (v : Val) : HistBuf := ⟨v, h.past⟩

/-- The `instance.onChange` subscriber installed by `useFormHistory`
(`src/form/use-form-history.ts`): a `HISTORY_REPLACE` notification
replaces the current slot, and only notifications whose action tag does
not start with `HISTORY_` push a new entry. -/
def historyOnChange (h : HistBuf) (payloadValue : Val) (a : FAction) : HistBuf :=
  let h1 := if a = .HISTORY_REPLACE then histReplace h payloadValue else h
  if !(strStartsWith (actionName a) "HISTORY_") then histSet h1 payloadValue else h1

mutual
/-- Specification-side predicate for the pruning invariant: a value
contains no container (itself included) that is empty or whose immediate
members are all nil. -/
def noHusk : Val → Bool
  | .arr xs => !(xs.all isNilV) && noHuskItems xs
  | .obj fs => !(fs.all (fun kv => isNilV kv.2)) && noHuskFields fs
  | _ => true
termination_by structural v => v

/-- `noHusk` over the items of an array. -/
def noHuskItems : List Val → Bool
  | [] => true
  | x :: t => noHusk x && noHuskItems t
termination_by structural xs => xs

/-- `noHusk` over the field values of an object. -/
def noHuskFields : List (String × Val) → Bool
  | [] => true
  | kv :: t => noHusk kv.2 && noHuskFields t
termination_by structural fs => fs
end

/-- Specification-side predicate: every container strictly inside the
value (the root itself exempt) is neither empty nor all-nil. -/
def noHuskInside : Val → Bool
  | .arr xs => noHuskItems xs
  | .obj fs => noHuskFields fs
  | _ => true

mutual
/-- Specification-side count of genuine leaf error messages (non-empty
string leaves) in an errors tree. -/
def leafMsgCount : Val → Nat
  | .str s => if s = "" then 0 else 1
  | .arr xs => leafMsgCountItems xs
  | .obj fs => leafMsgCountFields fs
  | _ => 0
termination_by structural v => v

/-- `leafMsgCount` over the items of an array. -/
def leafMsgCountItems : List Val → Nat
  | [] => 0
  | x :: t => leafMsgCount x + leafMsgCountItems t
termination_by structural xs => xs

/-- `leafMsgCount` over the field values of an object. -/
def leafMsgCountFields : List (String × Val) → Nat
  | [] => 0
  | kv :: t => leafMsgCount kv.2 + leafMsgCountFields t
termination_by structural fs => fs
end

/-- Whether one `assignValue` step of lodash `baseSet` actually stores the
value: objects always do; arrays only under an index (or canonical numeric
string) segment. -/
def assignOk : Val → Seg → Bool
  | .obj _, _ => true
  | .arr _, .idx _ => true
  | .arr _, .key k => (canonIdx k).isSome
  | _, _ => false

/-- Whether every step of lodash `baseSet` along a path stores its value
(so the written leaf is observable afterwards): the walk of `setSegs`,
requiring `assignOk` at each visited container. -/
def writable : Val → List Seg → Bool
  | w, [] => isObjectV w
  | w, [s] => assignOk w s
  | w, s :: rest =>
      assignOk w s &&
      writable (if isObjectV (childOf w s) then childOf w s else freshFor rest) rest

/-- JavaScript-to-lodash default normalization as `getError` observes it:
an `undefined` read surfaces as `null`. -/
def jsNull (v : Val) : Val :=
  if isUndefined v then .vnull else v

/-- A burst of synchronous `set` calls in one tick, applied in order. -/
def applySets (s : FormState) (ops : List (List Seg × Val)) (t : Nat) : FormState :=
  ops.foldl (fun st op => setO st op.1 op.2 false t) s

/-- The errors pipeline `handleMove` runs for one move (spec-side
restatement used to decompose `handleMoveO`): read both endpoint errors,
unset both endpoints (each with a root `deepClean`), then re-set each
truthy endpoint error at the opposite endpoint. -/
def handleMoveErrors (E : Val) (pf pt : List Seg) : Val :=
  let ef := lgetD E pf .vnull
  let et := lgetD E pt .vnull
  let e1 := deepClean (lset E pf .vnull) true
  let e2 := deepClean (lset e1 pt .vnull) true
  let e3 := if truthy ef then lset e2 pt ef else e2
  if truthy et then lset e3 pf et else e3

/-- The required-set pipeline `handleMove` runs for one move (spec-side
restatement used to decompose `handleMoveO`): sweep both endpoint keys,
then re-add each key whose opposite endpoint error is truthy and was
flagged. -/
def handleMoveRequired (R : List String) (E : Val) (pf pt : List Seg) : List String :=
  let ef := lgetD E pf .vnull
  let et := lgetD E pt .vnull
  let r2 := (reqRemove (reqRemove R (joinPath pf)).1 (joinPath pt)).1
  let r3 := if truthy ef then (if reqHas R (joinPath pf) then reqAdd r2 (joinPath pt) else r2)
            else r2
  if truthy et then (if reqHas R (joinPath pt) then reqAdd r3 (joinPath pf) else r3) else r3

mutual
/-- Boolean equality on `Val` (the nested inductive prevents deriving). -/
def valBEq : Val → Val → Bool
  | .undefined, .undefined => true
  | .vnull, .vnull => true
  | .str a, .str b => a == b
  | .num a, .num b => a == b
  | .bool a, .bool b => a == b
  | .arr xs, .arr ys => valBEqItems xs ys
  | .obj fs, .obj gs => valBEqFields fs gs
  | _, _ => false
termination_by structural a => a

/-- `valBEq` on item lists. -/
def valBEqItems : List Val → List Val → Bool
  | [], [] => true
  | x :: xs, y :: ys => valBEq x y && valBEqItems xs ys
  | _, _ => false
termination_by structural xs => xs

/-- `valBEq` on field lists. -/
def valBEqFields : List (String × Val) → List (String × Val) → Bool
  | [], [] => true
  | (k, v) :: xs, (l, w) :: ys => k == l && valBEq v w && valBEqFields xs ys
  | _, _ => false
termination_by structural xs => xs
end

/-- Nested structural induction for `Val`. -/
theorem val_induction (P : Val → Prop)
    (hu : P .undefined) (hvnull : P .vnull)
    (hstr : ∀ s, P (.str s)) (hnum : ∀ n, P (.num n)) (hbool : ∀ b, P (.bool b))
    (harr : ∀ xs, (∀ x ∈ xs, P x) → P (.arr xs))
    (hobj : ∀ fs, (∀ kv ∈ fs, P kv.2) → P (.obj fs)) :
    ∀ v, P v := by
  have key : ∀ n v, sizeOf v ≤ n → P v := by
    intro n
    induction n with
    | zero =>
        intro v hv
        cases v <;> simp_all
    | succ n ih =>
        intro v hv
        cases v with
        | arr xs =>
            refine harr xs (fun x hx => ih x ?_)
            have h1 := List.sizeOf_lt_of_mem hx
            simp only [Val.arr.sizeOf_spec] at hv
            omega
        | obj fs =>
            refine hobj fs (fun kv hkv => ih kv.2 ?_)
            have h1 := List.sizeOf_lt_of_mem hkv
            have h2 : sizeOf kv.2 < sizeOf kv := by
              obtain ⟨k, v'⟩ := kv
              simp only [Prod.mk.sizeOf_spec]
              omega
            simp only [Val.obj.sizeOf_spec] at hv
            omega
        | undefined => exact hu
        | vnull => exact hvnull
        | str s => exact hstr s
        | num m => exact hnum m
        | bool b => exact hbool b
  exact fun v => key (sizeOf v) v (Nat.le_refl _)

/-- `valBEq` decides equality. -/
theorem valBEq_iff : ∀ a b : Val, valBEq a b = true ↔ a = b := by
  intro a
  induction a using val_induction with
  | hu => intro b; cases b <;> simp [valBEq]
  | hvnull => intro b; cases b <;> simp [valBEq]
  | hstr s => intro b; cases b <;> simp [valBEq]
  | hnum n => intro b; cases b <;> simp [valBEq]
  | hbool c => intro b; cases b <;> simp [valBEq]
  | harr xs ihxs =>
      intro b
      cases b with
      | arr ys =>
          simp only [valBEq, Val.arr.injEq]
          induction xs generalizing ys with
          | nil => cases ys <;> simp [valBEqItems]
          | cons x xs ihtail =>
              cases ys with
              | nil => simp [valBEqItems]
              | cons y ys =>
                  simp only [valBEqItems, Bool.and_eq_true, List.cons.injEq]
                  rw [ihxs x (List.mem_cons_self x xs) y,
                    ihtail (fun z hz => ihxs z (List.mem_cons_of_mem x hz)) ys]
      | undefined => simp [valBEq]
      | vnull => simp [valBEq]
      | str s => simp [valBEq]
      | num n => simp [valBEq]
      | bool c => simp [valBEq]
      | obj gs => simp [valBEq]
  | hobj fs ihfs =>
      intro b
      cases b with
      | obj gs =>
          simp only [valBEq, Val.obj.injEq]
          induction fs generalizing gs with
          | nil => cases gs <;> simp [valBEqFields]
          | cons kv fs ihtail =>
              obtain ⟨k, v⟩ := kv
              cases gs with
              | nil => simp [valBEqFields]
              | cons lw gs =>
                  obtain ⟨l, w⟩ := lw
                  simp only [valBEqFields, Bool.and_eq_true, List.cons.injEq,
                    Prod.mk.injEq, beq_iff_eq]
                  rw [ihfs (k, v) (List.mem_cons_self _ fs) w,
                    ihtail (fun z hz => ihfs z (List.mem_cons_of_mem _ hz)) gs]
      | undefined => simp [valBEq]
      | vnull => simp [valBEq]
      | str s => simp [valBEq]
      | num n => simp [valBEq]
      | bool c => simp [valBEq]
      | arr ys => simp [valBEq]

instance : DecidableEq Val := fun a b => decidable_of_iff _ (valBEq_iff a b)

theorem lookupField_setField (fs : List (String × Val)) (k : String) (v : Val) :
    lookupField (setField fs k v) k = v := by
  induction fs with
  | nil => simp [setField, lookupField]
  | cons kv t ih =>
      obtain ⟨k', v'⟩ := kv
      by_cases h : k' = k <;> simp [setField, lookupField, h, ih]

theorem lookupField_setField_ne (fs : List (String × Val)) (k k' : String) (v : Val)
    (h : k ≠ k') : lookupField (setField fs k v) k' = lookupField fs k' := by
  induction fs with
  | nil => simp [setField, lookupField, h]
  | cons kv t ih =>
      obtain ⟨k'', v'⟩ := kv
      by_cases h2 : k'' = k
      · subst h2
        simp [setField, lookupField, h]
      · simp [setField, lookupField, h2, ih]

theorem padSet_getElem?_self (xs : List Val) (n : Nat) (v : Val) :
    (padSet xs n v)[n]? = some v := by
  unfold padSet
  split
  · rename_i h
    simp [List.getElem?_set_self', List.getElem?_eq_getElem h]
  · rename_i h
    rw [show xs ++ List.replicate (n - xs.length) Val.undefined ++ [v]
        = (xs ++ List.replicate (n - xs.length) Val.undefined) ++ [v] by simp]
    rw [List.getElem?_append_right (by simp; omega)]
    have h0 : n - (xs.length + (n - xs.length)) = 0 := by omega
    simp [h0]

theorem padSet_getElem?_ne (xs : List Val) (n j : Nat) (v : Val) (h : j ≠ n) :
    ((padSet xs n v)[j]?).getD .undefined = (xs[j]?).getD .undefined := by
  unfold padSet
  split
  · rw [List.getElem?_set_ne (Ne.symm h)]
  · rename_i hlen
    rcases Nat.lt_or_ge j xs.length with hj | hj
    · rw [show xs ++ List.replicate (n - xs.length) Val.undefined ++ [v]
          = xs ++ (List.replicate (n - xs.length) Val.undefined ++ [v]) by simp]
      rw [List.getElem?_append_left hj]
    · rw [List.getElem?_eq_none hj]
      rcases Nat.lt_or_ge j (n + 1) with hj2 | hj2
      · rw [show xs ++ List.replicate (n - xs.length) Val.undefined ++ [v]
            = xs ++ (List.replicate (n - xs.length) Val.undefined ++ [v]) by simp]
        rw [List.getElem?_append_right hj]
        have hlt : j - xs.length < n - xs.length := by omega
        rw [List.getElem?_append_left (by simpa using hlt)]
        simp [List.getElem?_replicate, hlt]
      · rw [List.getElem?_eq_none (by simp; omega)]

theorem padSet_length (xs : List Val) (n : Nat) (v : Val) :
    (padSet xs n v).length = if n < xs.length then xs.length else n + 1 := by
  unfold padSet
  split <;> (simp; try omega)

theorem childOf_assignSeg (w : Val) (s : Seg) (v : Val) (h : assignOk w s = true) :
    childOf (assignSeg w s v) s = v := by
  cases w with
  | obj fs =>
      cases s with
      | key k => simp [assignSeg, childOf, segStr, lookupField_setField]
      | idx n => simp [assignSeg, childOf, segStr, lookupField_setField]
  | arr xs =>
      cases s with
      | idx n =>
          simp only [assignSeg, childOf, List.get?_eq_getElem?]
          simp [padSet_getElem?_self]
      | key k =>
          simp only [assignOk] at h
          obtain ⟨n, hn⟩ := Option.isSome_iff_exists.mp h
          simp only [assignSeg, childOf, hn, List.get?_eq_getElem?]
          simp [padSet_getElem?_self]
  | undefined => simp [assignOk] at h
  | vnull => simp [assignOk] at h
  | str s' => simp [assignOk] at h
  | num n => simp [assignOk] at h
  | bool b => simp [assignOk] at h

theorem getSegs_setSegs (p : List Seg) (w v : Val) (hp : p ≠ [])
    (hw : writable w p = true) : getSegs (setSegs w p v) p = v := by
  induction p generalizing w with
  | nil => exact absurd rfl hp
  | cons s rest ih =>
      cases rest with
      | nil =>
          simp only [writable] at hw
          simp [setSegs, getSegs, childOf_assignSeg _ _ _ hw]
      | cons s2 rest2 =>
          simp only [writable, Bool.and_eq_true] at hw
          obtain ⟨h1, h2⟩ := hw
          simp only [setSegs, getSegs]
          rw [childOf_assignSeg _ _ _ h1]
          exact ih _ (by simp) h2

theorem writable_isObjectV (w : Val) (p : List Seg) (hw : writable w p = true) :
    isObjectV w = true := by
  cases p with
  | nil => simpa [writable] using hw
  | cons s rest =>
      cases rest with
      | nil =>
          simp only [writable] at hw
          cases w <;> simp_all [assignOk, isObjectV]
      | cons s2 rest2 =>
          simp only [writable, Bool.and_eq_true] at hw
          cases w <;> simp_all [assignOk, isObjectV]

theorem lget_lset (w v : Val) (p : List Seg) (hp : p ≠ []) (hw : writable w p = true) :
    lget (lset w p v) p = v := by
  unfold lset
  rw [if_pos (writable_isObjectV w p hw)]
  cases p with
  | nil => exact absurd rfl hp
  | cons s rest => simpa [lget] using getSegs_setSegs (s :: rest) w v hp hw

theorem lgetD_of_lget (w d : Val) (p : List Seg) :
    lgetD w p d = if lget w p = .undefined then d else lget w p := by
  unfold lgetD
  cases h : lget w p <;> simp [h]

/-- C1: for a well-formed non-empty path, `get(p)` immediately after
`set(p, v)` returns `v` — regardless of what the read caches held before —
because `set` installs the new value synchronously and `triggerOnChange`
flushes both per-path caches before any further read. -/
theorem C1_get_after_set (s : FormState) (p : List Seg) (v : Val) (sil : Bool) (t : Nat)
    (hp : p ≠ []) (hw : writable s.value p = true) :
    (getO (setO s p v sil t) p .undefined).1 = v ∧
    (setO s p v sil t).value = lset s.value p v ∧
    (setO s p v sil t).cacheGet = [] ∧
    (setO s p v sil t).cacheError = [] := by
  refine ⟨?_, rfl, rfl, rfl⟩
  simp only [setO, triggerOnChange, cacheFlush, getO, lookupField, isUndefined]
  rw [lgetD_of_lget, lget_lset s.value v p hp hw]
  split <;> simp_all

/-- Witness for C1 at a concrete input. -/
theorem C1_get_after_set_witness :
    (getO (setO ⟨.obj [("x", .num 1)], .obj [], [], [("a", .num 9)], [], false, 0, 0, 0,
        none, []⟩ [.key "a", .idx 1] (.str "v") false 5) [.key "a", .idx 1] .undefined).1
      = .str "v" :=
  (C1_get_after_set ⟨.obj [("x", .num 1)], .obj [], [], [("a", .num 9)], [], false, 0, 0, 0,
    none, []⟩ [.key "a", .idx 1] (.str "v") false 5 (by decide) (by decide)).1

theorem strStartsWith_self (s : String) : strStartsWith s s = true := by
  simp [strStartsWith, List.isPrefixOf_iff_prefix]

/-- C5 (amended): `unsetError(p)` removes from the required set exactly the
entries having the joined key of `p` as a plain string prefix — the exact
key, its dotted extensions, and also sibling keys that merely begin with
the same characters (e.g. unsetting `"user"` also removes `"username"`). -/
theorem C5_unset_required_sweep (s : FormState) (p : List Seg) (sil : Bool) (t : Nat)
    (e : String) :
    e ∈ (unsetErrorO s p sil t).requiredErrors ↔
      e ∈ s.requiredErrors ∧ strStartsWith e (joinPath p) = false := by
  show e ∈ (reqRemove s.requiredErrors (joinPath p)).1 ↔ _
  simp only [reqRemove, List.mem_filter, Bool.not_eq_true']
  constructor
  · rintro ⟨⟨h1, h2⟩, _⟩
    exact ⟨h1, h2⟩
  · rintro ⟨h1, h2⟩
    refine ⟨⟨h1, h2⟩, ?_⟩
    simp only [ne_eq, decide_eq_true_eq]
    rintro rfl
    rw [strStartsWith_self] at h2
    simp at h2

/-- C5 witness: removing `"user"` sweeps `"user.name"` but keeps `"x"`. -/
theorem C5_unset_required_sweep_witness :
    ("user.name" ∈ (⟨.obj [], .obj [], ["user.name", "x"], [], [], false, 0, 0, 0, none,
        []⟩ : FormState).requiredErrors ∧
      "user.name" ∉ (unsetErrorO ⟨.obj [], .obj [], ["user.name", "x"], [], [], false, 0, 0,
        0, none, []⟩ [.key "user"] false 1).requiredErrors) ∧
      "x" ∈ (unsetErrorO ⟨.obj [], .obj [], ["user.name", "x"], [], [], false, 0, 0, 0, none,
        []⟩ [.key "user"] false 1).requiredErrors := by
  refine ⟨⟨by decide, ?_⟩, ?_⟩
  · intro hmem
    have h := (C5_unset_required_sweep ⟨.obj [], .obj [], ["user.name", "x"], [], [], false,
      0, 0, 0, none, []⟩ [.key "user"] false 1 "user.name").mp hmem
    revert h
    decide
  · exact (C5_unset_required_sweep ⟨.obj [], .obj [], ["user.name", "x"], [], [], false,
      0, 0, 0, none, []⟩ [.key "user"] false 1 "x").mpr (by decide)

/-- C5 counterexample to the claim as stated: the sweep is by plain string
prefix, so unsetting `"user"` also removes the unrelated key `"username"`,
which the claim says must be kept. -/
theorem C5_counterexample :
    "username" ∈ (⟨.obj [], .obj [], ["username"], [], [], false, 0, 0, 0, none,
        []⟩ : FormState).requiredErrors ∧
      "username" ∉ (unsetErrorO ⟨.obj [], .obj [], ["username"], [], [], false, 0, 0, 0,
        none, []⟩ [.key "user"] false 1).requiredErrors := by
  decide

/-- C7: `setError` with an empty-string message is a complete no-op (the
state — errors, required set, caches, pending notification — is returned
untouched), while any non-empty string message writes the message at the
path, adds the joined path to the required set exactly when the
required-error flag is passed, and arms a `SET` change notification. -/
theorem C7_setError_empty_noop_nonempty_writes :
    (∀ (s : FormState) (p : List Seg) (sil req : Bool) (t : Nat),
      setErrorO s p (.str "") sil req t = s) ∧
    (∀ (s : FormState) (p : List Seg) (msg : String) (sil req : Bool) (t : Nat), msg ≠ "" →
      (setErrorO s p (.str msg) sil req t).errors = lset s.errors p (.str msg) ∧
      (setErrorO s p (.str msg) sil req t).pending = some (.SET, sil) ∧
      (setErrorO s p (.str msg) sil req t).requiredErrors =
        (if req then reqAdd s.requiredErrors (joinPath p) else s.requiredErrors) ∧
      (setErrorO s p (.str msg) sil req t).cacheGet = [] ∧
      (setErrorO s p (.str msg) sil req t).cacheError = []) := by
  constructor
  · intro s p sil req t
    simp [setErrorO, isStringV, isEmptyLodash]
  · intro s p msg sil req t hmsg
    have hlen : (msg.length == 0) = false := by
      simp only [beq_eq_false_iff_ne, ne_eq]
      intro h0
      apply hmsg
      cases msg with
      | mk data =>
          have hd : data = [] := List.length_eq_zero.mp h0
          rw [hd]
    simp only [setErrorO, isStringV, isEmptyLodash, hlen, Bool.and_false, Bool.false_eq_true,
      if_false, triggerOnChange, cacheFlush]
    cases req <;> simp

/-- Witness for C7's non-empty branch at a concrete input. -/
theorem C7_setError_empty_noop_nonempty_witness :
    (setErrorO ⟨.obj [], .obj [], [], [], [], false, 0, 0, 0, none, []⟩ [.key "a"]
        (.str "bad") false true 3).errors = .obj [("a", .str "bad")] ∧
      (setErrorO ⟨.obj [], .obj [], [], [], [], false, 0, 0, 0, none, []⟩ [.key "a"]
        (.str "bad") false true 3).requiredErrors = ["a"] := by
  have h := (C7_setError_empty_noop_nonempty_writes.2
    ⟨.obj [], .obj [], [], [], [], false, 0, 0, 0, none, []⟩ [.key "a"] "bad" false true 3
    (by decide))
  refine ⟨?_, ?_⟩
  · rw [h.1]
    decide
  · rw [h.2.2.1]
    decide

/-- C8: every undo/redo/replace restoration goes through `historyAction`,
which installs the value and arms a notification whose action tag starts
with `HISTORY_`; the `useFormHistory` subscriber never grows the history
buffer on a `HISTORY_`-tagged notification (a `HISTORY_REPLACE` only
rewrites the current slot), and records exactly the notifications whose
tag does not start with `HISTORY_`. -/
theorem C8_history_tagged_no_reentry :
    (∀ (s : FormState) (k : HKind) (v : Val) (sil : Bool) (t : Nat),
      (historyActionO s k v sil t).value = v ∧
      (historyActionO s k v sil t).pending = some (historyTag k, sil) ∧
      strStartsWith (actionName (historyTag k)) "HISTORY_" = true) ∧
    (∀ (h : HistBuf) (v : Val) (a : FAction),
      strStartsWith (actionName a) "HISTORY_" = true →
      histEntryCount (historyOnChange h v a) = histEntryCount h) ∧
    (∀ (h : HistBuf) (v : Val) (a : FAction),
      strStartsWith (actionName a) "HISTORY_" = false →
      historyOnChange h v a = histSet h v) := by
  refine ⟨?_, ?_, ?_⟩
  · intro s k v sil t
    cases k <;> exact ⟨rfl, rfl, by decide⟩
  · intro h v a ha
    cases a with
    | HISTORY_REDO =>
        have hs : strStartsWith (actionName FAction.HISTORY_REDO) "HISTORY_" = true := by decide
        simp [historyOnChange, hs]
    | HISTORY_UNDO =>
        have hs : strStartsWith (actionName FAction.HISTORY_UNDO) "HISTORY_" = true := by decide
        simp [historyOnChange, hs]
    | HISTORY_REPLACE =>
        have hs : strStartsWith (actionName FAction.HISTORY_REPLACE) "HISTORY_" = true := by
          decide
        simp [historyOnChange, hs, histEntryCount, histReplace]
    | CLEAR => exact absurd ha (by decide)
    | CLEAR_ERRORS => exact absurd ha (by decide)
    | INIT => exact absurd ha (by decide)
    | REPLACE => exact absurd ha (by decide)
    | SET => exact absurd ha (by decide)
  · intro h v a ha
    cases a with
    | CLEAR =>
        have hs : strStartsWith (actionName FAction.CLEAR) "HISTORY_" = false := by decide
        simp [historyOnChange, hs]
    | CLEAR_ERRORS =>
        have hs : strStartsWith (actionName FAction.CLEAR_ERRORS) "HISTORY_" = false := by
          decide
        simp [historyOnChange, hs]
    | INIT =>
        have hs : strStartsWith (actionName FAction.INIT) "HISTORY_" = false := by decide
        simp [historyOnChange, hs]
    | REPLACE =>
        have hs : strStartsWith (actionName FAction.REPLACE) "HISTORY_" = false := by decide
        simp [historyOnChange, hs]
    | SET =>
        have hs : strStartsWith (actionName FAction.SET) "HISTORY_" = false := by decide
        simp [historyOnChange, hs]
    | HISTORY_REDO => exact absurd ha (by decide)
    | HISTORY_UNDO => exact absurd ha (by decide)
    | HISTORY_REPLACE => exact absurd ha (by decide)

/-- Witness for C8 at concrete inputs: an undo restoration arms a
`HISTORY_UNDO`-tagged notification, the subscriber keeps the buffer size
unchanged on it, and a plain `SET` notification is recorded. -/
theorem C8_history_tagged_no_reentry_witness :
    (historyActionO ⟨.obj [("n", .num 2)], .obj [], [], [], [], false, 0, 0, 0, none, []⟩
        .UNDO (.obj [("n", .num 1)]) false 9).pending = some (.HISTORY_UNDO, false) ∧
      histEntryCount (historyOnChange ⟨.obj [("n", .num 1)], [.obj []]⟩ (.obj [("n", .num 1)])
        .HISTORY_UNDO) = 2 ∧
      historyOnChange ⟨.obj [("n", .num 1)], []⟩ (.obj [("n", .num 2)]) .SET
        = ⟨.obj [("n", .num 2)], [.obj [("n", .num 1)]]⟩ := by
  refine ⟨(C8_history_tagged_no_reentry.1 _ .UNDO _ false 9).2.1, ?_, ?_⟩
  · rw [C8_history_tagged_no_reentry.2.1 _ _ .HISTORY_UNDO (by decide)]
    decide
  · rw [C8_history_tagged_no_reentry.2.2 _ _ .SET (by decide)]
    rfl

theorem setO_notifications (s : FormState) (p : List Seg) (v : Val) (sil : Bool) (t : Nat) :
    (setO s p v sil t).notifications = s.notifications := rfl

theorem applySets_notifications (s : FormState) (ops : List (List Seg × Val)) (t : Nat) :
    (applySets s ops t).notifications = s.notifications := by
  induction ops generalizing s with
  | nil => rfl
  | cons op rest ih => simpa [applySets] using ih (setO s op.1 op.2 false t)

theorem applySets_value (s : FormState) (ops : List (List Seg × Val)) (t : Nat) :
    (applySets s ops t).value = ops.foldl (fun w op => lset w op.1 op.2) s.value := by
  induction ops generalizing s with
  | nil => rfl
  | cons op rest ih => simpa [applySets] using ih (setO s op.1 op.2 false t)

theorem applySets_errors (s : FormState) (ops : List (List Seg × Val)) (t : Nat) :
    (applySets s ops t).errors = s.errors := by
  induction ops generalizing s with
  | nil => rfl
  | cons op rest ih => simpa [applySets] using ih (setO s op.1 op.2 false t)

theorem applySets_pending (s : FormState) (ops : List (List Seg × Val)) (t : Nat)
    (h : ops ≠ []) : (applySets s ops t).pending = some (.SET, false) := by
  induction ops generalizing s with
  | nil => exact absurd rfl h
  | cons op rest ih =>
      cases rest with
      | nil => rfl
      | cons op2 rest2 => simpa [applySets] using ih (setO s op.1 op.2 false t) (by simp)

/-- C2: a burst of n synchronous `set` calls in one tick delivers no
notification while it runs, applies every write to `value` in order
synchronously, and when the debounce timer then fires the subscribers
receive exactly one notification, whose payload carries the value and
errors of the state after the last call. -/
theorem C2_burst_single_notification (s : FormState) (ops : List (List Seg × Val)) (t : Nat)
    (hne : ops ≠ []) :
    (applySets s ops t).notifications = s.notifications ∧
    (applySets s ops t).value = ops.foldl (fun w op => lset w op.1 op.2) s.value ∧
    ∃ pl : Payload,
      (flushDebounce (applySets s ops t)).notifications
          = s.notifications ++ [(pl, .SET, false)] ∧
        pl.value = (applySets s ops t).value ∧
        pl.errors = (applySets s ops t).errors ∧
        pl.changesCount = (applySets s ops t).changesCount + 1 := by
  refine ⟨applySets_notifications s ops t, applySets_value s ops t, ?_⟩
  refine ⟨getPayload { applySets s ops t with
    changesCount := (applySets s ops t).changesCount + 1
    changed := (applySets s ops t).lastChange > (applySets s ops t).lastSubmit
    pending := none }, ?_, rfl, rfl, rfl⟩
  rw [flushDebounce, applySets_pending s ops t hne]
  simp [applySets_notifications s ops t]

/-- Witness for C2: the theorem instantiated at a concrete two-set burst. -/
theorem C2_burst_single_notification_witness :
    (applySets ⟨.obj [], .obj [], [], [], [], false, 0, 0, 0, none, []⟩
        [([.key "a"], .num 1), ([.key "a"], .num 2)] 4).notifications = [] ∧
    (applySets ⟨.obj [], .obj [], [], [], [], false, 0, 0, 0, none, []⟩
        [([.key "a"], .num 1), ([.key "a"], .num 2)] 4).value
      = [([Seg.key "a"], Val.num 1), ([Seg.key "a"], Val.num 2)].foldl
          (fun w op => lset w op.1 op.2) (.obj []) ∧
    ∃ pl : Payload,
      (flushDebounce (applySets ⟨.obj [], .obj [], [], [], [], false, 0, 0, 0, none, []⟩
          [([.key "a"], .num 1), ([.key "a"], .num 2)] 4)).notifications
        = [] ++ [(pl, .SET, false)] ∧
      pl.value = (applySets ⟨.obj [], .obj [], [], [], [], false, 0, 0, 0, none, []⟩
          [([.key "a"], .num 1), ([.key "a"], .num 2)] 4).value ∧
      pl.errors = (applySets ⟨.obj [], .obj [], [], [], [], false, 0, 0, 0, none, []⟩
          [([.key "a"], .num 1), ([.key "a"], .num 2)] 4).errors ∧
      pl.changesCount = (applySets ⟨.obj [], .obj [], [], [], [], false, 0, 0, 0, none, []⟩
          [([.key "a"], .num 1), ([.key "a"], .num 2)] 4).changesCount + 1 :=
  C2_burst_single_notification ⟨.obj [], .obj [], [], [], [], false, 0, 0, 0, none, []⟩
    [([.key "a"], .num 1), ([.key "a"], .num 2)] 4 (by decide)

theorem eraseIdx_getElem?_lt {α : Type} (l : List α) (i j : Nat) (h : j < i) :
    (l.eraseIdx i)[j]? = l[j]? := by
  induction l generalizing i j with
  | nil => simp
  | cons x t ih =>
      cases i with
      | zero => omega
      | succ i' =>
          cases j with
          | zero => simp [List.eraseIdx]
          | succ j' => simpa [List.eraseIdx] using ih i' j' (by omega)

theorem eraseIdx_getElem?_ge {α : Type} (l : List α) (i j : Nat) (h : i ≤ j) :
    (l.eraseIdx i)[j]? = l[j + 1]? := by
  induction l generalizing i j with
  | nil => simp
  | cons x t ih =>
      cases i with
      | zero => simp [List.eraseIdx]
      | succ i' =>
          cases j with
          | zero => omega
          | succ j' => simpa [List.eraseIdx] using ih i' j' (by omega)

theorem handleDeleteO_km (ls : ListST) (path : List Seg) (i t : Nat) :
    (handleDeleteO ls path i t).km = ⟨ls.km.keys.eraseIdx i, ls.km.id⟩ := rfl

/-- C6: removing index i closes the gap in the key table: the id counter
does not move, keys at slots before i are unchanged, the keys of items
formerly at slots above i now answer at slot minus one, and `getKey` for a
shifted item serves its original key without minting a new one (the key
manager is returned unchanged). -/
theorem C6_keys_stable_under_remove (ls : ListST) (path : List Seg) (i t : Nat) :
    (handleDeleteO ls path i t).km.id = ls.km.id ∧
    (∀ j, j < i → keyAt (handleDeleteO ls path i t).km j = keyAt ls.km j) ∧
    (∀ j, i ≤ j → keyAt (handleDeleteO ls path i t).km j = keyAt ls.km (j + 1)) ∧
    (∀ j k, i ≤ j → keyAt ls.km (j + 1) = some k →
      getKey (handleDeleteO ls path i t).km j = (k, (handleDeleteO ls path i t).km)) := by
  rw [handleDeleteO_km]
  refine ⟨rfl, ?_, ?_, ?_⟩
  · intro j hj
    simp [keyAt, eraseIdx_getElem?_lt ls.km.keys i j hj]
  · intro j hj
    simp [keyAt, eraseIdx_getElem?_ge ls.km.keys i j hj]
  · intro j k hj hk
    have hkey : keyAt (⟨ls.km.keys.eraseIdx i, ls.km.id⟩ : KeyMgr) j = some k := by
      simpa [keyAt, eraseIdx_getElem?_ge ls.km.keys i j hj] using hk
    simp [getKey, hkey]

/-- Witness for C6: delete slot 2 of a five-key table; earlier keys stay,
later keys shift down one slot, and `getKey` serves them unminted. -/
theorem C6_keys_stable_under_remove_witness :
    (handleDeleteO ⟨⟨[some 10, some 11, some 12, some 13, some 14], 15⟩,
        ⟨.obj [], .obj [], [], [], [], false, 0, 0, 0, none, []⟩⟩ [.key "xs"] 2 1).km.id = 15 ∧
    keyAt (handleDeleteO ⟨⟨[some 10, some 11, some 12, some 13, some 14], 15⟩,
        ⟨.obj [], .obj [], [], [], [], false, 0, 0, 0, none, []⟩⟩ [.key "xs"] 2 1).km 1
      = some 11 ∧
    getKey (handleDeleteO ⟨⟨[some 10, some 11, some 12, some 13, some 14], 15⟩,
        ⟨.obj [], .obj [], [], [], [], false, 0, 0, 0, none, []⟩⟩ [.key "xs"] 2 1).km 2
      = (13, (handleDeleteO ⟨⟨[some 10, some 11, some 12, some 13, some 14], 15⟩,
        ⟨.obj [], .obj [], [], [], [], false, 0, 0, 0, none, []⟩⟩ [.key "xs"] 2 1).km) := by
  have h := C6_keys_stable_under_remove ⟨⟨[some 10, some 11, some 12, some 13, some 14], 15⟩,
    ⟨.obj [], .obj [], [], [], [], false, 0, 0, 0, none, []⟩⟩ [.key "xs"] 2 1
  exact ⟨h.1, (h.2.1 1 (by decide)).trans (by decide), h.2.2.2 2 13 (by decide) (by decide)⟩

theorem getO_fst (s : FormState) (p : List Seg) (d : Val) (h : s.cacheGet = []) :
    (getO s p d).1 = lgetD s.value p d := by
  simp [getO, h, lookupField, isUndefined]

theorem getO_snd_value (s : FormState) (p : List Seg) (d : Val) :
    (getO s p d).2.value = s.value := by
  cases hc : isUndefined (lookupField s.cacheGet (joinPath p)) <;> simp [getO, hc]

/-- C10: for any index strictly beyond the current size, `handleAdd` with a
truthy value appends the value at the end of the list and its freshly
minted key at the end of the key table (no gap, no rejection) and returns
that key, bumping the id counter. -/
theorem C10_add_beyond_end_appends (ls : ListST) (path : List Seg) (v : Val) (ix : Int)
    (t : Nat) (hv : truthy v = true)
    (hix : (sizeV (getO ls.form path (.arr [])).1 : Int) < ix) :
    (handleAddO ls path v ix t).1 = ls.km.id ∧
    (handleAddO ls path v ix t).2.km.keys = ls.km.keys ++ [some ls.km.id] ∧
    (handleAddO ls path v ix t).2.km.id = ls.km.id + 1 ∧
    (handleAddO ls path v ix t).2.form.value
      = lset ls.form.value path (.arr (asArr (getO ls.form path (.arr [])).1 ++ [v])) := by
  rcases hh : getO ls.form path (.arr []) with ⟨items, s1⟩
  have hix' : (sizeV items : Int) < ix := by
    rw [hh] at hix
    simpa using hix
  have hs1 : s1.value = ls.form.value := by
    have h2 := getO_snd_value ls.form path (.arr [])
    rw [hh] at h2
    exact h2
  have hcond : (decide (0 ≤ ix) && decide (ix ≤ (sizeV items : Int))) = false := by
    have hno : ¬ (ix ≤ (sizeV items : Int)) := by omega
    simp [hno]
  simp only [handleAddO, hv, Bool.not_true, Bool.false_eq_true, if_false, hh, hcond]
  simp [setO, triggerOnChange, cacheFlush, hs1]

/-- Witness for C10: adding at index 5 of a two-item list appends. -/
theorem C10_add_beyond_end_appends_witness :
    (handleAddO ⟨⟨[some 0, some 1], 2⟩, ⟨.obj [("xs", .arr [.num 1, .num 2])], .obj [], [],
        [], [], false, 0, 0, 0, none, []⟩⟩ [.key "xs"] (.num 3) 5 1).1 = 2 ∧
    (handleAddO ⟨⟨[some 0, some 1], 2⟩, ⟨.obj [("xs", .arr [.num 1, .num 2])], .obj [], [],
        [], [], false, 0, 0, 0, none, []⟩⟩ [.key "xs"] (.num 3) 5 1).2.km.keys
      = [some 0, some 1, some 2] ∧
    (handleAddO ⟨⟨[some 0, some 1], 2⟩, ⟨.obj [("xs", .arr [.num 1, .num 2])], .obj [], [],
        [], [], false, 0, 0, 0, none, []⟩⟩ [.key "xs"] (.num 3) 5 1).2.form.value
      = .obj [("xs", .arr [.num 1, .num 2, .num 3])] := by
  have h := C10_add_beyond_end_appends ⟨⟨[some 0, some 1], 2⟩,
    ⟨.obj [("xs", .arr [.num 1, .num 2])], .obj [], [], [], [], false, 0, 0, 0, none, []⟩⟩
    [.key "xs"] (.num 3) 5 1 (by decide) (by decide)
  exact ⟨h.1, (h.2.1).trans (by decide), (h.2.2.2).trans (by decide)⟩

theorem lgetD_ne_undefined (w d : Val) (p : List Seg) (hd : d ≠ .undefined) :
    lgetD w p d ≠ .undefined := by
  unfold lgetD
  cases h : lget w p <;> simp [h]
  exact hd

theorem isUndef_eq_false_iff (v : Val) : isUndefined v = false ↔ v ≠ .undefined := by
  cases v <;> simp [isUndefined]

/-- C9 (amended): the read caches are keyed solely by the joined path
string, so two distinct paths with the same dotted join alias one cache
slot: after `get(p1)`, a `get(p2)` with the same join returns `get(p1)`'s
result — provided that result was not `undefined`, because an `undefined`
entry reads as a cache miss; `getError` aliases unconditionally, since its
`null` lodash default means it never caches `undefined`. -/
theorem C9_joined_path_cache_alias (s : FormState) (p1 p2 : List Seg) (d1 d2 : Val)
    (hj : joinPath p1 = joinPath p2) :
    ((getO s p1 d1).1 ≠ .undefined →
      (getO (getO s p1 d1).2 p2 d2).1 = (getO s p1 d1).1) ∧
    (getErrorO (getErrorO s p1).2 p2).1 = (getErrorO s p1).1 := by
  constructor
  · intro hne
    cases hc : isUndefined (lookupField s.cacheGet (joinPath p1)) with
    | false =>
        have h1 : getO s p1 d1 = (lookupField s.cacheGet (joinPath p1), s) := by
          simp [getO, hc]
        rw [h1] at hne ⊢
        simp only [getO, ← hj, hc, Bool.false_eq_true, if_false]
    | true =>
        have h1 : getO s p1 d1 = (lgetD s.value p1 d1,
            { s with cacheGet := setField s.cacheGet (joinPath p1) (lgetD s.value p1 d1) }) := by
          simp [getO, hc]
        rw [h1] at hne ⊢
        simp only [getO, ← hj, lookupField_setField]
        rw [(isUndef_eq_false_iff _).mpr hne]
        simp
  · cases hc : isUndefined (lookupField s.cacheError (joinPath p1)) with
    | false =>
        have h1 : getErrorO s p1 = (lookupField s.cacheError (joinPath p1), s) := by
          simp [getErrorO, hc]
        rw [h1]
        simp only [getErrorO, ← hj, hc, Bool.false_eq_true, if_false]
    | true =>
        have h1 : getErrorO s p1 = (lgetD s.errors p1 .vnull,
            { s with cacheError :=
                (setField s.cacheError (joinPath p1) (lgetD s.errors p1 .vnull)) }) := by
          simp [getErrorO, hc]
        rw [h1]
        simp only [getErrorO, ← hj, lookupField_setField]
        rw [(isUndef_eq_false_iff _).mpr (lgetD_ne_undefined s.errors .vnull p1 (by simp))]
        simp

/-- Witness for C9's amended statement at a concrete aliasing pair. -/
theorem C9_joined_path_cache_alias_witness :
    (getO ((getO ⟨.obj [("a", .obj [("b", .num 1)]), ("a.b", .num 2)], .obj [], [], [], [],
        false, 0, 0, 0, none, []⟩ [.key "a", .key "b"] .undefined).2) [.key "a.b"] .undefined).1
      = (getO ⟨.obj [("a", .obj [("b", .num 1)]), ("a.b", .num 2)], .obj [], [], [], [],
        false, 0, 0, 0, none, []⟩ [.key "a", .key "b"] .undefined).1 ∧
    (getO ⟨.obj [("a", .obj [("b", .num 1)]), ("a.b", .num 2)], .obj [], [], [], [],
        false, 0, 0, 0, none, []⟩ [.key "a", .key "b"] .undefined).1 = .num 1 := by
  refine ⟨(C9_joined_path_cache_alias ⟨.obj [("a", .obj [("b", .num 1)]), ("a.b", .num 2)],
    .obj [], [], [], [], false, 0, 0, 0, none, []⟩ [.key "a", .key "b"] [.key "a.b"]
    .undefined .undefined (by decide)).1 (by decide), by decide⟩

/-- C9 counterexample to the claim as stated: when the first lookup's
result is `undefined`, the cached entry reads as a miss, and the aliasing
second `get` returns its own fresh lookup (here `2`), not the cached
`undefined` — so the two aliased reads disagree. -/
theorem C9_counterexample :
    [Seg.key "a", Seg.key "b"] ≠ [Seg.key "a.b"] ∧
    joinPath [Seg.key "a", Seg.key "b"] = joinPath [Seg.key "a.b"] ∧
    (getO ⟨.obj [("a", .obj []), ("a.b", .num 2)], .obj [], [], [], [], false, 0, 0, 0,
        none, []⟩ [.key "a", .key "b"] .undefined).1 = .undefined ∧
    (getO ((getO ⟨.obj [("a", .obj []), ("a.b", .num 2)], .obj [], [], [], [], false, 0, 0,
        0, none, []⟩ [.key "a", .key "b"] .undefined).2) [.key "a.b"] .undefined).1 = .num 2 := by
  decide

theorem noHusk_of_nil (v : Val) (h : isNilV v = true) : noHusk v = true := by
  cases v <;> simp_all [isNilV, noHusk]

theorem noHusk_of_not_container (v : Val) (h : isObjectV v = false) : noHusk v = true := by
  cases v <;> simp_all [isObjectV, noHusk]

theorem noHuskItems_eq_all (xs : List Val) :
    noHuskItems xs = xs.all noHusk := by
  induction xs with
  | nil => rfl
  | cons x t ih => simp [noHuskItems, ih]

theorem noHuskFields_eq_all (fs : List (String × Val)) :
    noHuskFields fs = fs.all (fun kv => noHusk kv.2) := by
  induction fs with
  | nil => rfl
  | cons kv t ih => simp [noHuskFields, ih]

theorem cleanItems_noHusk (xs : List Val)
    (ih : ∀ x ∈ xs, noHusk (deepClean x false) = true) :
    ∀ y ∈ cleanItems xs, noHusk y = true := by
  induction xs with
  | nil => simp [cleanItems]
  | cons x t iht =>
      intro y hy
      simp only [cleanItems, List.mem_cons] at hy
      rcases hy with hy | hy
      · subst hy
        by_cases h1 : isNilV x = true
        · rw [if_pos h1]
          exact noHusk_of_nil x h1
        · rw [if_neg h1]
          by_cases h2 : isObjectV x = true
          · rw [if_pos h2]
            exact ih x (List.mem_cons_self x t)
          · rw [if_neg h2]
            exact noHusk_of_not_container x (by simpa using h2)
      · exact iht (fun z hz => ih z (List.mem_cons_of_mem x hz)) y hy

theorem cleanFields_noHusk (fs : List (String × Val))
    (ih : ∀ kv ∈ fs, noHusk (deepClean kv.2 false) = true) :
    ∀ kv ∈ cleanFields fs, noHusk kv.2 = true := by
  induction fs with
  | nil => simp [cleanFields]
  | cons kv0 t iht =>
      obtain ⟨k, v⟩ := kv0
      intro kv hkv
      have ihtail := iht (fun z hz => ih z (List.mem_cons_of_mem _ hz))
      have ihead : noHusk (deepClean v false) = true := ih (k, v) (List.mem_cons_self _ t)
      simp only [cleanFields] at hkv
      by_cases h1 : isNilV v = true
      · rw [if_pos h1] at hkv
        exact ihtail kv hkv
      · rw [if_neg h1] at hkv
        by_cases h2 : (isPlainObjectV v && isEmptyContainer v) = true
        · rw [if_pos h2] at hkv
          exact ihtail kv hkv
        · rw [if_neg h2] at hkv
          by_cases h3 : (isArrV v && isEmptyContainer v) = true
          · rw [if_pos h3] at hkv
            rcases List.mem_cons.mp hkv with rfl | hkv
            · rfl
            · exact ihtail kv hkv
          · rw [if_neg h3] at hkv
            by_cases h4 : (isArrV v && allNilArr v) = true
            · rw [if_pos h4] at hkv
              rcases List.mem_cons.mp hkv with rfl | hkv
              · rfl
              · exact ihtail kv hkv
            · rw [if_neg h4] at hkv
              by_cases h5 : isObjectV v = true
              · rw [if_pos h5] at hkv
                by_cases h6 : isNilV (deepClean v false) = true
                · rw [if_pos h6] at hkv
                  exact ihtail kv hkv
                · rw [if_neg h6] at hkv
                  by_cases h7 : (isArrV (deepClean v false) && allNilArr (deepClean v false))
                      = true
                  · rw [if_pos h7] at hkv
                    rcases List.mem_cons.mp hkv with rfl | hkv
                    · rfl
                    · exact ihtail kv hkv
                  · rw [if_neg h7] at hkv
                    by_cases h8 : isPlainObjectV (deepClean v false) = true
                    · rw [if_pos h8] at hkv
                      by_cases h9 : isEmptyContainer (deepClean v false) = true
                      · rw [if_pos h9] at hkv
                        exact ihtail kv hkv
                      · rw [if_neg h9] at hkv
                        by_cases h10 : (hasOnlyNullFields (deepClean v false)
                            && decide (sizeV (deepClean v false) > 0)) = true
                        · rw [if_pos h10] at hkv
                          exact ihtail kv hkv
                        · rw [if_neg h10] at hkv
                          rcases List.mem_cons.mp hkv with rfl | hkv
                          · exact ihead
                          · exact ihtail kv hkv
                    · rw [if_neg h8] at hkv
                      rcases List.mem_cons.mp hkv with rfl | hkv
                      · exact ihead
                      · exact ihtail kv hkv
              · rw [if_neg h5] at hkv
                rcases List.mem_cons.mp hkv with rfl | hkv
                · exact noHusk_of_not_container v (by simpa using h5)
                · exact ihtail kv hkv

theorem deepClean_noHusk :
    ∀ v, noHusk (deepClean v false) = true ∧ noHuskInside (deepClean v true) = true := by
  intro v
  induction v using val_induction with
  | hu => exact ⟨rfl, rfl⟩
  | hvnull => exact ⟨rfl, rfl⟩
  | hstr s => exact ⟨rfl, rfl⟩
  | hnum n => exact ⟨rfl, rfl⟩
  | hbool b => exact ⟨rfl, rfl⟩
  | harr xs ih =>
      have ihc : ∀ x ∈ xs, noHusk (deepClean x false) = true := fun x hx => (ih x hx).1
      have hall : ∀ y ∈ cleanItems xs, noHusk y = true := cleanItems_noHusk xs ihc
      have hnil : isNilV (Val.arr xs) = false := rfl
      constructor
      · show noHusk (deepClean (.arr xs) false) = true
        rw [deepClean]
        simp only [Bool.false_and, Bool.false_eq_true, if_false, hnil, Bool.not_false,
          Bool.true_and]
        by_cases hc : ((cleanItems xs).all isNilV || (cleanItems xs).length == 0) = true
        · rw [if_pos hc]
          rfl
        · rw [if_neg hc]
          have h1 : (cleanItems xs).all isNilV = false := by
            cases hAll : (cleanItems xs).all isNilV with
            | false => rfl
            | true => exact absurd (by simp [hAll]) hc
          simp [noHusk, noHuskItems_eq_all, h1, List.all_eq_true.mpr hall]
      · show noHuskInside (deepClean (.arr xs) true) = true
        rw [deepClean]
        by_cases he : xs = []
        · subst he
          rfl
        · have hlen : (isEmptyContainer (Val.arr xs)) = false := by
            simp [isEmptyContainer, sizeV, he]
          simp only [Bool.true_and, isObjectV, hlen, Bool.and_false, Bool.false_eq_true,
            if_false, hnil, Bool.not_true, Bool.false_and, Bool.or_false, noHuskInside,
            noHuskItems_eq_all]
          exact List.all_eq_true.mpr hall
  | hobj fs ih =>
      have ihc : ∀ kv ∈ fs, noHusk (deepClean kv.2 false) = true := fun kv hkv => (ih kv hkv).1
      have hall : ∀ kv ∈ cleanFields fs, noHusk kv.2 = true := cleanFields_noHusk fs ihc
      have hnil : isNilV (Val.obj fs) = false := rfl
      constructor
      · show noHusk (deepClean (.obj fs) false) = true
        rw [deepClean]
        simp only [Bool.false_and, Bool.false_eq_true, if_false, hnil, Bool.not_false,
          Bool.true_and]
        by_cases hc : ((cleanFields fs).all (fun kv => isNilV kv.2)
            && decide ((cleanFields fs).length > 0)) = true
        · rw [if_pos hc]
          rfl
        · rw [if_neg hc]
          by_cases hz : ((cleanFields fs).length == 0) = true
          · rw [if_pos hz]
            rfl
          · rw [if_neg hz]
            have h1 : ((cleanFields fs).all (fun kv => isNilV kv.2)) = false := by
              cases hAll : (cleanFields fs).all (fun kv => isNilV kv.2) with
              | false => rfl
              | true =>
                  exfalso
                  apply hc
                  have hlen0 : (cleanFields fs).length ≠ 0 := by simpa using hz
                  simp [hAll, Nat.pos_of_ne_zero hlen0]
            simp [noHusk, noHuskFields_eq_all, h1, List.all_eq_true.mpr hall]
      · show noHuskInside (deepClean (.obj fs) true) = true
        rw [deepClean]
        by_cases he : fs = []
        · subst he
          rfl
        · have hlen : (isEmptyContainer (Val.obj fs)) = false := by
            simp [isEmptyContainer, sizeV, he]
          simp only [Bool.true_and, isObjectV, hlen, Bool.and_false, Bool.false_eq_true,
            if_false, hnil, Bool.not_true, Bool.false_and, noHuskInside,
            noHuskFields_eq_all]
          exact List.all_eq_true.mpr hall

theorem lset_obj_is_obj (fs : List (String × Val)) (p : List Seg) (v : Val) :
    ∃ gs, lset (.obj fs) p v = .obj gs := by
  unfold lset
  simp only [isObjectV, if_true]
  cases p with
  | nil => exact ⟨fs, rfl⟩
  | cons s rest =>
      cases rest with
      | nil => exact ⟨setField fs (segStr s) v, rfl⟩
      | cons s2 rest2 => exact ⟨setField fs (segStr s) _, rfl⟩

theorem deepClean_obj_root_is_obj (gs : List (String × Val)) :
    ∃ hs, deepClean (.obj gs) true = .obj hs := by
  rw [deepClean]
  by_cases he : gs = []
  · subst he
    exact ⟨[], rfl⟩
  · have hlen : (isEmptyContainer (Val.obj gs)) = false := by
      simp [isEmptyContainer, sizeV, he]
    simp only [Bool.true_and, isObjectV, hlen, Bool.and_false, Bool.false_eq_true, if_false]
    exact ⟨cleanFields gs, rfl⟩

/-- C4 (amended): after any `unsetError`, the deep-clean guarantees that no
container strictly inside the errors tree is empty or has all-nil
members (the root is exempt, as the claim says); but `errorsCount()` is
lodash `size` of the root, i.e. the number of top-level keys of `errors`,
not the number of genuine leaf messages. -/
theorem C4_unset_prunes_and_count_is_top_level (s : FormState) (p : List Seg) (sil : Bool)
    (t : Nat) (efs : List (String × Val)) (herr : s.errors = .obj efs) :
    noHuskInside (unsetErrorO s p sil t).errors = true ∧
    ∃ fs', (unsetErrorO s p sil t).errors = .obj fs' ∧
      errorsCountO (unsetErrorO s p sil t) = fs'.length := by
  have hval : (unsetErrorO s p sil t).errors = deepClean (lset s.errors p .vnull) true := rfl
  constructor
  · rw [hval]
    exact (deepClean_noHusk (lset s.errors p .vnull)).2
  · rw [herr] at hval
    obtain ⟨gs, hgs⟩ := lset_obj_is_obj efs p .vnull
    rw [hgs] at hval
    obtain ⟨hs, hhs⟩ := deepClean_obj_root_is_obj gs
    rw [hhs] at hval
    exact ⟨hs, hval, by simp [errorsCountO, hval, sizeV]⟩

/-- Witness for C4's amended statement at a concrete input: unsetting the
only message under `a` prunes the `a` subtree husk. -/
theorem C4_unset_prunes_and_count_is_top_level_witness :
    noHuskInside (unsetErrorO ⟨.obj [], .obj [("a", .obj [("b", .str "x")])], [], [], [],
        false, 0, 0, 0, none, []⟩ [.key "a", .key "b"] false 2).errors = true ∧
    ∃ fs', (unsetErrorO ⟨.obj [], .obj [("a", .obj [("b", .str "x")])], [], [], [], false, 0,
        0, 0, none, []⟩ [.key "a", .key "b"] false 2).errors = .obj fs' ∧
      errorsCountO (unsetErrorO ⟨.obj [], .obj [("a", .obj [("b", .str "x")])], [], [], [],
        false, 0, 0, 0, none, []⟩ [.key "a", .key "b"] false 2) = fs'.length :=
  C4_unset_prunes_and_count_is_top_level ⟨.obj [], .obj [("a", .obj [("b", .str "x")])], [],
    [], [], false, 0, 0, 0, none, []⟩ [.key "a", .key "b"] false 2
    [("a", .obj [("b", .str "x")])] rfl

/-- C4 counterexample to the claim as stated: two messages nested under one
top-level key give `errorsCount() = 1` although the tree holds two genuine
leaf messages, so `errorsCount()` does not count leaves. -/
theorem C4_counterexample :
    errorsCountO (setErrorO (setErrorO ⟨.obj [], .obj [], [], [], [], false, 0, 0, 0, none,
        []⟩ [.key "a", .key "b"] (.str "x") false false 0) [.key "a", .key "c"] (.str "y")
        false false 0) = 1 ∧
    leafMsgCount (setErrorO (setErrorO ⟨.obj [], .obj [], [], [], [], false, 0, 0, 0, none,
        []⟩ [.key "a", .key "b"] (.str "x") false false 0) [.key "a", .key "c"] (.str "y")
        false false 0).errors = 2 := by
  decide

theorem parseNatAux_append (xs ys : List Char) (acc : Nat) :
    parseNatAux (xs ++ ys) acc =
      match parseNatAux xs acc with
      | some a => parseNatAux ys a
      | none => none := by
  induction xs generalizing acc with
  | nil => rfl
  | cons c tl ih =>
      simp only [List.cons_append, parseNatAux]
      cases digitVal c with
      | some d => exact ih (acc * 10 + d)
      | none => rfl

theorem digitVal_digit (d : Nat) (h : d < 10) :
    digitVal (Char.ofNat (48 + d)) = some d := by
  have hv : (48 + d).isValidChar := Or.inl (by omega)
  have htn : (Char.ofNat (48 + d)).toNat = 48 + d := by
    unfold Char.ofNat
    simp only [hv, Char.ofNatAux, Char.toNat, dif_pos, UInt32.toNat, UInt32.ofNatCore,
      BitVec.toNat_ofNatLt]
  simp only [digitVal, htn]
  have hc : (48 ≤ 48 + d && 48 + d ≤ 57) = true := by
    simp
    omega
  rw [if_pos hc]
  simp

theorem parseNatAux_natReprAux (fuel n acc : Nat) (h : n < fuel) :
    parseNatAux (natReprAux fuel n) acc
      = some (acc * 10 ^ (natReprAux fuel n).length + n) := by
  induction fuel generalizing n acc with
  | zero => omega
  | succ fuel ih =>
      rw [natReprAux]
      by_cases hn : n < 10
      · rw [if_pos hn]
        simp only [parseNatAux, digitVal_digit n hn, List.length_cons, List.length_nil]
        simp
      · rw [if_neg hn]
        have hdiv : n / 10 < fuel := by
          have h1 : n / 10 < n := Nat.div_lt_self (by omega) (by omega)
          omega
        rw [parseNatAux_append, ih (n / 10) acc hdiv]
        simp only [parseNatAux, digitVal_digit (n % 10) (Nat.mod_lt n (by omega))]
        have : (acc * 10 ^ (natReprAux fuel (n / 10)).length + n / 10) * 10 + n % 10
            = acc * 10 ^ ((natReprAux fuel (n / 10)).length + 1) + n := by
          rw [pow_succ]
          have := Nat.div_add_mod n 10
          ring_nf
          omega
        simp [this]

theorem natReprAux_ne_nil (fuel n : Nat) (h : n < fuel) : natReprAux fuel n ≠ [] := by
  cases fuel with
  | zero => omega
  | succ fuel =>
      rw [natReprAux]
      by_cases hn : n < 10
      · rw [if_pos hn]
        simp
      · rw [if_neg hn]
        simp

theorem parseNat_natRepr (n : Nat) : parseNat (natRepr n) = some n := by
  have hne := natReprAux_ne_nil (n + 1) n (by omega)
  have hparse := parseNatAux_natReprAux (n + 1) n 0 (by omega)
  unfold parseNat natRepr
  cases hl : natReprAux (n + 1) n with
  | nil => exact absurd hl hne
  | cons c tl =>
      rw [hl] at hparse
      simpa using hparse

theorem natRepr_inj (m n : Nat) (h : natRepr m = natRepr n) : m = n := by
  have h1 := parseNat_natRepr m
  rw [h] at h1
  rw [parseNat_natRepr n] at h1
  exact (Option.some_inj.mp h1).symm

theorem joinPath_pair (a b : String) :
    joinPath [Seg.key a, Seg.key b] = a ++ "." ++ b := rfl

theorem joinPath_key_idx (L : String) (n : Nat) :
    joinPath [Seg.key L, Seg.idx n] = L ++ "." ++ natRepr n := rfl

theorem joinPath_key_idx_ne (L : String) (f t : Nat) (h : f ≠ t) :
    joinPath [Seg.key L, Seg.idx f] ≠ joinPath [Seg.key L, Seg.idx t] := by
  rw [joinPath_key_idx, joinPath_key_idx]
  intro he
  apply h
  apply natRepr_inj
  have hd := congrArg String.data he
  simp only [String.data_append] at hd
  have hd2 := List.append_cancel_left hd
  cases hrf : natRepr f with
  | mk df =>
      cases hrt : natRepr t with
      | mk dt =>
          rw [hrf, hrt] at hd2
          simp only at hd2
          rw [hd2]

theorem moveList_left_eq {α : Type} [Inhabited α] (a : List α) (f t : Nat)
    (hf : f < a.length) (ht : t < f) :
    moveList a (f : Int) (t : Int)
      = a.take t ++ [a.getD f default] ++ ((a.take f).drop t) ++ a.drop (f + 1) := by
  unfold moveList
  have hguard : ((f : Int) < 0 || (a.length : Int) ≤ (f : Int) || (t : Int) < 0
      || (a.length : Int) ≤ (t : Int)) = false := by
    simp only [Bool.or_eq_false_iff, decide_eq_false_iff_not]
    refine ⟨⟨⟨by omega, by omega⟩, by omega⟩, by omega⟩
  simp only [hguard, Bool.false_eq_true, if_false]
  rw [if_pos (by exact_mod_cast ht)]
  simp [Int.toNat_natCast]

theorem moveList_right_eq {α : Type} [Inhabited α] (a : List α) (f t : Nat)
    (ht : t < a.length) (hf : f < t) :
    moveList a (f : Int) (t : Int)
      = a.take f ++ ((a.take (t + 1)).drop (f + 1)) ++ [a.getD f default]
          ++ a.drop (t + 1) := by
  unfold moveList
  have hguard : ((f : Int) < 0 || (a.length : Int) ≤ (f : Int) || (t : Int) < 0
      || (a.length : Int) ≤ (t : Int)) = false := by
    simp only [Bool.or_eq_false_iff, decide_eq_false_iff_not]
    refine ⟨⟨⟨by omega, by omega⟩, by omega⟩, by omega⟩
  simp only [hguard, Bool.false_eq_true, if_false]
  rw [if_neg (by omega), if_pos (by exact_mod_cast hf)]
  simp [Int.toNat_natCast]

theorem moveList_spec {α : Type} [Inhabited α] (a : List α) (f t : Nat)
    (hf : f < a.length) (ht : t < a.length) (hne : f ≠ t) :
    (moveList a (f : Int) (t : Int))[t]? = a[f]? ∧
    (∀ j, j < f → j < t → (moveList a (f : Int) (t : Int))[j]? = a[j]?) ∧
    (∀ j, f < j → t < j → j < a.length → (moveList a (f : Int) (t : Int))[j]? = a[j]?) ∧
    (∀ j, t < j → j ≤ f → (moveList a (f : Int) (t : Int))[j]? = a[j - 1]?) ∧
    (∀ j, f ≤ j → j < t → (moveList a (f : Int) (t : Int))[j]? = a[j + 1]?) := by
  have hitem : a[f]? = some (a.getD f default) := by
    rw [List.getD_eq_getElem a default hf, List.getElem?_eq_getElem hf]
  rcases Nat.lt_or_ge t f with hd | hd
  · rw [moveList_left_eq a f t hf hd]
    have hlA : (a.take t).length = t := by simp; omega
    have hlAI : (a.take t ++ [a.getD f default]).length = t + 1 := by simp; omega
    have hlAIB : (a.take t ++ [a.getD f default] ++ (a.take f).drop t).length = f + 1 := by
      simp
      omega
    refine ⟨?_, ?_, ?_, ?_, ?_⟩
    · rw [List.getElem?_append_left (by rw [hlAIB]; omega),
        List.getElem?_append_left (by rw [hlAI]; omega),
        List.getElem?_append_right (by omega), hlA, hitem]
      simp
    · intro j hjf hjt
      rw [List.getElem?_append_left (by rw [hlAIB]; omega),
        List.getElem?_append_left (by rw [hlAI]; omega),
        List.getElem?_append_left (by rw [hlA]; omega),
        List.getElem?_take_of_lt hjt]
    · intro j hjf hjt hjl
      rw [List.getElem?_append_right (by rw [hlAIB]; omega), hlAIB, List.getElem?_drop]
      congr 1
      omega
    · intro j hjt hjf
      rw [List.getElem?_append_left (by rw [hlAIB]; omega),
        List.getElem?_append_right (by rw [hlAI]; omega), hlAI, List.getElem?_drop,
        List.getElem?_take_of_lt (by omega)]
      congr 1
      omega
    · intro j hjf hjt
      omega
  · have hd' : f < t := by omega
    rw [moveList_right_eq a f t ht hd']
    have hlA : (a.take f).length = f := by simp; omega
    have hlAB : (a.take f ++ (a.take (t + 1)).drop (f + 1)).length = t := by
      simp
      omega
    have hlABI : (a.take f ++ (a.take (t + 1)).drop (f + 1) ++ [a.getD f default]).length
        = t + 1 := by
      simp
      omega
    refine ⟨?_, ?_, ?_, ?_, ?_⟩
    · rw [List.getElem?_append_left (by rw [hlABI]; omega),
        List.getElem?_append_right (by omega), hlAB, hitem]
      simp
    · intro j hjf hjt
      rw [List.getElem?_append_left (by rw [hlABI]; omega),
        List.getElem?_append_left (by rw [hlAB]; omega),
        List.getElem?_append_left (by rw [hlA]; omega),
        List.getElem?_take_of_lt hjf]
    · intro j hjf hjt hjl
      rw [List.getElem?_append_right (by rw [hlABI]; omega), hlABI, List.getElem?_drop]
      congr 1
      omega
    · intro j hjt hjf
      omega
    · intro j hjf hjt
      rw [List.getElem?_append_left (by rw [hlABI]; omega),
        List.getElem?_append_left (by rw [hlAB]; omega),
        List.getElem?_append_right (by rw [hlA]; omega), hlA, List.getElem?_drop,
        List.getElem?_take_of_lt (by omega)]
      congr 1
      omega

theorem mem_reqRemove (l : List String) (k e : String) :
    e ∈ (reqRemove l k).1 ↔ e ∈ l ∧ strStartsWith e k = false := by
  simp only [reqRemove, List.mem_filter, Bool.not_eq_true']
  constructor
  · rintro ⟨⟨h1, h2⟩, _⟩
    exact ⟨h1, h2⟩
  · rintro ⟨h1, h2⟩
    refine ⟨⟨h1, h2⟩, ?_⟩
    simp only [ne_eq, decide_eq_true_eq]
    rintro rfl
    rw [strStartsWith_self] at h2
    simp at h2

theorem mem_reqAdd (l : List String) (k e : String) :
    e ∈ reqAdd l k ↔ e ∈ l ∨ e = k := by
  unfold reqAdd
  split <;> rename_i h <;> simp
  rintro rfl
  exact h

theorem truthy_no_empty_guard (v : Val) (h : truthy v = true) :
    (isStringV v && isEmptyLodash v) = false := by
  cases v with
  | str s =>
      simp only [truthy, ne_eq, decide_eq_true_eq] at h
      simp only [isStringV, isEmptyLodash, Bool.true_and, beq_eq_false_iff_ne, ne_eq]
      intro h0
      apply h
      cases s with
      | mk data =>
          have hd : data = [] := List.length_eq_zero.mp h0
          rw [hd]
  | undefined => simp [truthy] at h
  | vnull => simp [truthy] at h
  | num n => simp [isStringV]
  | bool b => simp [isStringV]
  | arr xs => simp [isStringV]
  | obj fs => simp [isStringV]

theorem cleanItems_id (es : List Val) (h : ∀ x ∈ es, isObjectV x = false) :
    cleanItems es = es := by
  induction es with
  | nil => rfl
  | cons x t ih =>
      have hx := h x (List.mem_cons_self x t)
      have ht := ih (fun z hz => h z (List.mem_cons_of_mem x hz))
      rw [cleanItems, ht]
      by_cases hn : isNilV x = true
      · rw [if_pos hn]
      · rw [if_neg hn, if_neg (by simp [hx])]

theorem deepClean_obj_root (gs : List (String × Val)) :
    deepClean (.obj gs) true = .obj (cleanFields gs) := by
  rw [deepClean]
  by_cases he : gs = []
  · subst he
    rfl
  · have hlen : (isEmptyContainer (Val.obj gs)) = false := by
      simp [isEmptyContainer, sizeV, he]
    simp only [Bool.true_and, isObjectV, hlen, Bool.and_false, Bool.false_eq_true, if_false]
    rfl

theorem padSet_ne_nil (es : List Val) (j : Nat) (w : Val) : padSet es j w ≠ [] := by
  unfold padSet
  split
  · rename_i h
    intro h0
    have hl := congrArg List.length h0
    rw [List.length_set] at hl
    simp only [List.length_nil] at hl
    omega
  · simp

theorem mem_padSet (es : List Val) (j : Nat) (w x : Val) (hx : x ∈ padSet es j w) :
    x ∈ es ∨ x = w ∨ x = .undefined := by
  unfold padSet at hx
  split at hx
  · rcases List.mem_or_eq_of_mem_set hx with h | h
    · exact Or.inl h
    · exact Or.inr (Or.inl h)
  · simp only [List.append_assoc, List.mem_append, List.mem_singleton,
      List.mem_replicate] at hx
    rcases hx with h | ⟨h, rfl⟩ | h
    · exact Or.inl h
    · exact Or.inr (Or.inr rfl)
    · exact Or.inr (Or.inl h)

theorem deepClean_arr_leaves (es : List Val) (hne : es ≠ [])
    (hleaf : ∀ x ∈ es, isObjectV x = false) (hnil : es.all isNilV = false) :
    deepClean (.arr es) false = .arr es := by
  rw [deepClean]
  simp only [Bool.false_and, Bool.false_eq_true, if_false, isNilV, Bool.not_false,
    Bool.true_and, cleanItems_id es hleaf, hnil, Bool.false_or]
  rw [if_neg (by simpa using hne)]

theorem lookupField_cleanFields_arr (gs : List (String × Val)) (L : String) (es : List Val)
    (hl : lookupField gs L = .arr es) (hne : es ≠ [])
    (hleaf : ∀ x ∈ es, isObjectV x = false) :
    lookupField (cleanFields gs) L = (if es.all isNilV then .vnull else .arr es) := by
  induction gs with
  | nil => simp [lookupField] at hl
  | cons kv t ih =>
      obtain ⟨k, v⟩ := kv
      by_cases hk : k = L
      · subst hk
        rw [lookupField, if_pos rfl] at hl
        subst hl
        rw [cleanFields]
        rw [if_neg (by simp [isNilV]), if_neg (by simp [isPlainObjectV])]
        by_cases hn : es.all isNilV = true
        · rw [if_neg (by simp [isArrV, isEmptyContainer, sizeV, hne]),
            if_pos (by simp [isArrV, allNilArr, hn])]
          simp [lookupField, hn]
        · have hnil : es.all isNilV = false := by simpa using hn
          rw [if_neg (by simp [isArrV, isEmptyContainer, sizeV, hne]),
            if_neg (by simp [isArrV, allNilArr, hnil]), if_pos (by simp [isObjectV])]
          rw [deepClean_arr_leaves es hne hleaf hnil]
          rw [if_neg (by simp [isNilV]), if_neg (by simp [isArrV, allNilArr, hnil]),
            if_neg (by simp [isPlainObjectV])]
          simp [lookupField, hnil]
      · rw [lookupField, if_neg hk] at hl
        have iht := ih hl
        rw [cleanFields]
        by_cases h1 : isNilV v = true
        · rw [if_pos h1]
          exact iht
        · rw [if_neg h1]
          by_cases h2 : (isPlainObjectV v && isEmptyContainer v) = true
          · rw [if_pos h2]
            exact iht
          · rw [if_neg h2]
            by_cases h3 : (isArrV v && isEmptyContainer v) = true
            · rw [if_pos h3, lookupField, if_neg hk]
              exact iht
            · rw [if_neg h3]
              by_cases h4 : (isArrV v && allNilArr v) = true
              · rw [if_pos h4, lookupField, if_neg hk]
                exact iht
              · rw [if_neg h4]
                by_cases h5 : isObjectV v = true
                · rw [if_pos h5]
                  by_cases h6 : isNilV (deepClean v false) = true
                  · rw [if_pos h6]
                    exact iht
                  · rw [if_neg h6]
                    by_cases h7 : (isArrV (deepClean v false)
                        && allNilArr (deepClean v false)) = true
                    · rw [if_pos h7, lookupField, if_neg hk]
                      exact iht
                    · rw [if_neg h7]
                      by_cases h8 : isPlainObjectV (deepClean v false) = true
                      · rw [if_pos h8]
                        by_cases h9 : isEmptyContainer (deepClean v false) = true
                        · rw [if_pos h9]
                          exact iht
                        · rw [if_neg h9]
                          by_cases h10 : (hasOnlyNullFields (deepClean v false)
                              && decide (sizeV (deepClean v false) > 0)) = true
                          · rw [if_pos h10]
                            exact iht
                          · rw [if_neg h10, lookupField, if_neg hk]
                            exact iht
                      · rw [if_neg h8, lookupField, if_neg hk]
                        exact iht
                · rw [if_neg h5, lookupField, if_neg hk]
                  exact iht

theorem lset_obj_key_idx_arr (efs : List (String × Val)) (L : String) (es : List Val)
    (j : Nat) (w : Val) (hl : lookupField efs L = .arr es) :
    lset (.obj efs) [Seg.key L, Seg.idx j] w
      = .obj (setField efs L (.arr (padSet es j w))) := by
  unfold lset
  rw [if_pos (by simp [isObjectV])]
  show assignSeg (.obj efs)
      (Seg.key L) (setSegs (if isObjectV (childOf (.obj efs) (Seg.key L)) = true
        then childOf (.obj efs) (Seg.key L) else freshFor [Seg.idx j]) [Seg.idx j] w)
    = _
  rw [show childOf (.obj efs) (Seg.key L) = .arr es from hl]
  rw [if_pos (by simp [isObjectV])]
  rfl

theorem lset_obj_key_idx_nonobj (efs : List (String × Val)) (L : String) (j : Nat) (w : Val)
    (hl : isObjectV (lookupField efs L) = false) :
    lset (.obj efs) [Seg.key L, Seg.idx j] w
      = .obj (setField efs L (.arr (padSet [] j w))) := by
  unfold lset
  rw [if_pos (by simp [isObjectV])]
  show assignSeg (.obj efs)
      (Seg.key L) (setSegs (if isObjectV (childOf (.obj efs) (Seg.key L)) = true
        then childOf (.obj efs) (Seg.key L) else freshFor [Seg.idx j]) [Seg.idx j] w)
    = _
  rw [show childOf (.obj efs) (Seg.key L) = lookupField efs L from rfl]
  rw [if_neg (by simp [hl]), show freshFor [Seg.idx j] = .arr [] from rfl]
  rfl

theorem lgetD_obj_key_idx (efs : List (String × Val)) (L : String) (j : Nat) :
    lgetD (.obj efs) [Seg.key L, Seg.idx j] .vnull
      = jsNull (childOf (lookupField efs L) (Seg.idx j)) := by
  rw [lgetD_of_lget]
  have : lget (.obj efs) [Seg.key L, Seg.idx j]
      = childOf (lookupField efs L) (Seg.idx j) := rfl
  rw [this]
  unfold jsNull
  cases childOf (lookupField efs L) (Seg.idx j) <;> simp [isUndefined]

theorem childOf_arr_idx (es : List Val) (j : Nat) :
    childOf (.arr es) (Seg.idx j) = (es.get? j).getD .undefined := rfl

theorem childOf_noncontainer_idx (v : Val) (j : Nat) (h : isObjectV v = false) :
    childOf v (Seg.idx j) = .undefined := by
  cases v <;> simp_all [childOf, isObjectV]

theorem handleMoveO_decomp (km : KeyMgr) (s : FormState) (path : List Seg) (f t time : Nat)
    (xs : List Val) (hne : f ≠ t) (hcg : s.cacheGet = []) (hce : s.cacheError = [])
    (hxs : lgetD s.value path (.arr []) = .arr xs)
    (hf : f < xs.length) (ht : t < xs.length)
    (hkne : joinPath (path ++ [Seg.idx f]) ≠ joinPath (path ++ [Seg.idx t])) :
    (handleMoveO ⟨km, s⟩ path (f : Int) (t : Int) time).km
        = ⟨moveList km.keys (f : Int) (t : Int), km.id⟩ ∧
    (handleMoveO ⟨km, s⟩ path (f : Int) (t : Int) time).form.value
        = lset s.value path (.arr (moveList xs (f : Int) (t : Int))) ∧
    (handleMoveO ⟨km, s⟩ path (f : Int) (t : Int) time).form.errors
        = handleMoveErrors s.errors (path ++ [Seg.idx f]) (path ++ [Seg.idx t]) ∧
    (handleMoveO ⟨km, s⟩ path (f : Int) (t : Int) time).form.requiredErrors
        = handleMoveRequired s.requiredErrors s.errors (path ++ [Seg.idx f])
            (path ++ [Seg.idx t]) ∧
    (handleMoveO ⟨km, s⟩ path (f : Int) (t : Int) time).form.cacheError = [] := by
  have hfti : ¬ ((f : Int) = (t : Int)) := by exact_mod_cast hne
  have hget : getO s path (.arr []) = (.arr xs,
      { s with cacheGet := [(joinPath path, .arr xs)] }) := by
    simp [getO, hcg, lookupField, isUndefined, hxs]
    rfl
  have hguard : ((f : Int) < 0 ∨ (sizeV (.arr xs) : Int) ≤ (f : Int) ∨ (t : Int) < 0
      ∨ (sizeV (.arr xs) : Int) ≤ (t : Int)) = False := by
    simp only [sizeV, eq_iff_iff, iff_false]
    push_neg
    refine ⟨by omega, by exact_mod_cast hf, by omega, by exact_mod_cast ht⟩
  set s1 : FormState := { s with cacheGet := [(joinPath path, .arr xs)] } with hs1
  set ef := lgetD s.errors (path ++ [Seg.idx f]) .vnull with hef
  set et := lgetD s.errors (path ++ [Seg.idx t]) .vnull with het2
  have hge1 : getErrorO s1 (path ++ [Seg.idx f]) = (ef,
      { s1 with cacheError := [(joinPath (path ++ [Seg.idx f]), ef)] }) := by
    simp [getErrorO, hs1, hce, lookupField, isUndefined]
    rfl
  set s2 : FormState := { s1 with cacheError := [(joinPath (path ++ [Seg.idx f]), ef)] }
    with hs2
  have hge2 : getErrorO s2 (path ++ [Seg.idx t]) = (et,
      { s2 with cacheError :=
        (setField [(joinPath (path ++ [Seg.idx f]), ef)] (joinPath (path ++ [Seg.idx t]))
          et) }) := by
    have hlk : lookupField [(joinPath (path ++ [Seg.idx f]), ef)]
        (joinPath (path ++ [Seg.idx t])) = .undefined := by
      simp [lookupField, hkne]
    simp [getErrorO, hs2, hs1, hlk, isUndefined]
  have hguardB : (decide ((f : Int) < 0) || decide ((sizeV (.arr xs) : Int) ≤ (f : Int))
      || decide ((t : Int) < 0) || decide ((sizeV (.arr xs) : Int) ≤ (t : Int))) = false := by
    simp only [sizeV, Bool.or_eq_false_iff, decide_eq_false_iff_not]
    refine ⟨⟨⟨by omega, by omega⟩, by omega⟩, by omega⟩
  by_cases hbf : truthy ef = true <;> by_cases hbt : truthy et = true <;>
    · simp only [handleMoveO, if_neg hfti, hget, hguardB, Bool.false_eq_true, if_false,
        Int.toNat_natCast, hge1, hge2, hs2, hs1, unsetErrorO, setErrorO, setO,
        triggerOnChange, cacheFlush, hbf, hbt, if_true, handleMoveErrors,
        handleMoveRequired, ← hef, ← het2, apply_ite FormState.errors,
        apply_ite FormState.requiredErrors, apply_ite FormState.value,
        apply_ite FormState.cacheError, ite_self, truthy_no_empty_guard,
        Bool.false_and, Bool.and_false, reqHas, asArr]
      simp [hbf, hbt, ite_self, asArr]

theorem getErrorO_fst (s : FormState) (p : List Seg) (h : s.cacheError = []) :
    (getErrorO s p).1 = lgetD s.errors p .vnull := by
  simp [getErrorO, h, lookupField, isUndefined]

theorem handleMoveRequired_spec (R : List String) (E : Val) (pf pt : List Seg)
    (hkne : joinPath pf ≠ joinPath pt) :
    (joinPath pt ∈ handleMoveRequired R E pf pt ↔
      (truthy (lgetD E pf .vnull) = true ∧ joinPath pf ∈ R)) ∧
    (joinPath pf ∈ handleMoveRequired R E pf pt ↔
      (truthy (lgetD E pt .vnull) = true ∧ joinPath pt ∈ R)) ∧
    (∀ r, strStartsWith r (joinPath pf) = false → strStartsWith r (joinPath pt) = false →
      (r ∈ handleMoveRequired R E pf pt ↔ r ∈ R)) := by
  have hntf : (joinPath pt) ∉ (reqRemove (reqRemove R (joinPath pf)).1 (joinPath pt)).1 := by
    rw [mem_reqRemove]
    rintro ⟨_, h2⟩
    rw [strStartsWith_self] at h2
    simp at h2
  have hnff : (joinPath pf) ∉ (reqRemove (reqRemove R (joinPath pf)).1 (joinPath pt)).1 := by
    rw [mem_reqRemove, mem_reqRemove]
    rintro ⟨⟨_, h2⟩, _⟩
    rw [strStartsWith_self] at h2
    simp at h2
  refine ⟨?_, ?_, ?_⟩
  · simp only [handleMoveRequired]
    by_cases hbf : truthy (lgetD E pf .vnull) = true <;>
      by_cases hbt : truthy (lgetD E pt .vnull) = true <;>
        simp only [hbf, hbt, if_true, if_false, Bool.false_eq_true] <;>
          by_cases hrf : reqHas R (joinPath pf) = true <;>
            by_cases hrt : reqHas R (joinPath pt) = true <;>
              simp_all [reqHas, mem_reqAdd, hntf, Ne.symm hkne, hkne]
  · simp only [handleMoveRequired]
    by_cases hbf : truthy (lgetD E pf .vnull) = true <;>
      by_cases hbt : truthy (lgetD E pt .vnull) = true <;>
        simp only [hbf, hbt, if_true, if_false, Bool.false_eq_true] <;>
          by_cases hrf : reqHas R (joinPath pf) = true <;>
            by_cases hrt : reqHas R (joinPath pt) = true <;>
              simp_all [reqHas, mem_reqAdd, hnff, Ne.symm hkne, hkne]
  · intro r hrpf hrpt
    have hrnepf : r ≠ joinPath pf := by
      rintro rfl
      rw [strStartsWith_self] at hrpf
      simp at hrpf
    have hrnept : r ≠ joinPath pt := by
      rintro rfl
      rw [strStartsWith_self] at hrpt
      simp at hrpt
    have hr2 : r ∈ (reqRemove (reqRemove R (joinPath pf)).1 (joinPath pt)).1 ↔ r ∈ R := by
      rw [mem_reqRemove, mem_reqRemove]
      simp [hrpf, hrpt]
    simp only [handleMoveRequired]
    by_cases hbf : truthy (lgetD E pf .vnull) = true <;>
      by_cases hbt : truthy (lgetD E pt .vnull) = true <;>
        simp only [hbf, hbt, if_true, if_false, Bool.false_eq_true] <;>
          by_cases hrf : reqHas R (joinPath pf) = true <;>
            by_cases hrt : reqHas R (joinPath pt) = true <;>
              simp_all [reqHas, mem_reqAdd, hrnepf, hrnept]

theorem truthy_jsNull (x : Val) : truthy (jsNull x) = truthy x := by
  cases x <;> simp [jsNull, isUndefined, truthy]

theorem jsNull_of_nil (x : Val) (h : isNilV x = true) : jsNull x = .vnull := by
  cases x <;> simp_all [isNilV, jsNull, isUndefined]

theorem jsNull_jsNull (x : Val) : jsNull (jsNull x) = jsNull x := by
  cases x <;> simp [jsNull, isUndefined]

theorem childOf_arr_idx' (es : List Val) (j : Nat) :
    childOf (.arr es) (Seg.idx j) = (es[j]?).getD .undefined := by
  simp [childOf, List.get?_eq_getElem?]

theorem padSet_read_self (A : List Val) (n : Nat) (w : Val) :
    ((padSet A n w)[n]?).getD .undefined = w := by
  rw [padSet_getElem?_self]
  rfl

theorem padSet_length_of_lt (A : List Val) (n : Nat) (w : Val) (h : n < A.length) :
    (padSet A n w).length = A.length := by
  rw [padSet_length, if_pos h]

theorem allNil_read (A : List Val) (j : Nat) (h : A.all isNilV = true) :
    isNilV ((A[j]?).getD .undefined) = true := by
  cases hA : A[j]? with
  | none => rfl
  | some x =>
      have hx : x ∈ A := by
        have := List.getElem?_eq_some.mp hA
        obtain ⟨hlt, hget⟩ := this
        rw [← hget]
        exact List.getElem_mem hlt
      exact List.all_eq_true.mp h x hx

theorem padSet_all_nil (A : List Val) (n : Nat) (h : A.all isNilV = true) :
    (padSet A n .vnull).all isNilV = true := by
  rw [List.all_eq_true]
  intro x hx
  rcases mem_padSet A n .vnull x hx with h1 | h1 | h1
  · exact List.all_eq_true.mp h x h1
  · rw [h1]
    rfl
  · rw [h1]
    rfl

theorem padSet_nil_all_nil (n : Nat) :
    (padSet ([] : List Val) n .vnull).all isNilV = true := by
  rw [List.all_eq_true]
  intro x hx
  rcases mem_padSet [] n .vnull x hx with h1 | h1 | h1
  · simp at h1
  · rw [h1]
    rfl
  · rw [h1]
    rfl

theorem handleMoveErrors_spec (efs : List (String × Val)) (L : String) (es : List Val)
    (f t : Nat) (hes : lookupField efs L = .arr es)
    (hleaf : ∀ x ∈ es, isObjectV x = false)
    (hf : f < es.length) (ht : t < es.length) (hne : f ≠ t) :
    (∀ j, j < es.length → j ≠ f → j ≠ t →
      lgetD (handleMoveErrors (.obj efs) [Seg.key L, Seg.idx f] [Seg.key L, Seg.idx t])
        [Seg.key L, Seg.idx j] .vnull = jsNull ((es[j]?).getD .undefined)) ∧
    ((isNilV ((es[f]?).getD .undefined) = true ∨ truthy ((es[f]?).getD .undefined) = true) →
      lgetD (handleMoveErrors (.obj efs) [Seg.key L, Seg.idx f] [Seg.key L, Seg.idx t])
        [Seg.key L, Seg.idx t] .vnull = jsNull ((es[f]?).getD .undefined)) ∧
    ((isNilV ((es[t]?).getD .undefined) = true ∨ truthy ((es[t]?).getD .undefined) = true) →
      lgetD (handleMoveErrors (.obj efs) [Seg.key L, Seg.idx f] [Seg.key L, Seg.idx t])
        [Seg.key L, Seg.idx f] .vnull = jsNull ((es[t]?).getD .undefined)) := by
  have hef : lgetD (.obj efs) [Seg.key L, Seg.idx f] .vnull
      = jsNull ((es[f]?).getD .undefined) := by
    rw [lgetD_obj_key_idx, hes, childOf_arr_idx']
  have het : lgetD (.obj efs) [Seg.key L, Seg.idx t] .vnull
      = jsNull ((es[t]?).getD .undefined) := by
    rw [lgetD_obj_key_idx, hes, childOf_arr_idx']
  have hleaf1 : ∀ x ∈ padSet es f .vnull, isObjectV x = false := by
    intro x hx
    rcases mem_padSet es f .vnull x hx with h | h | h
    · exact hleaf x h
    · rw [h]
      rfl
    · rw [h]
      rfl
  have hlen1 : (padSet es f .vnull).length = es.length := padSet_length_of_lt es f .vnull hf
  have hleaf2 : ∀ x ∈ padSet (padSet es f .vnull) t .vnull, isObjectV x = false := by
    intro x hx
    rcases mem_padSet (padSet es f .vnull) t .vnull x hx with h | h | h
    · exact hleaf1 x h
    · rw [h]
      rfl
    · rw [h]
      rfl
  have hlen2 : (padSet (padSet es f .vnull) t .vnull).length = es.length := by
    rw [padSet_length_of_lt _ t _ (by omega), hlen1]
  have he1 : deepClean (lset (.obj efs) [Seg.key L, Seg.idx f] .vnull) true
      = .obj (cleanFields (setField efs L (.arr (padSet es f .vnull)))) := by
    rw [lset_obj_key_idx_arr efs L es f .vnull hes, deepClean_obj_root]
  have hlk1 : lookupField (cleanFields (setField efs L (.arr (padSet es f .vnull)))) L
      = (if (padSet es f .vnull).all isNilV then .vnull else .arr (padSet es f .vnull)) :=
    lookupField_cleanFields_arr _ L _ (lookupField_setField efs L _)
      (padSet_ne_nil es f .vnull) hleaf1
  have he2 : ∃ gs2,
      deepClean (lset (.obj (cleanFields (setField efs L (.arr (padSet es f .vnull)))))
          [Seg.key L, Seg.idx t] .vnull) true = .obj gs2
        ∧ lookupField gs2 L = (if (padSet (padSet es f .vnull) t .vnull).all isNilV
            then .vnull else .arr (padSet (padSet es f .vnull) t .vnull)) := by
    by_cases hA : (padSet es f .vnull).all isNilV = true
    · rw [lset_obj_key_idx_nonobj _ L t .vnull (by simp [hlk1, hA, isObjectV]),
        deepClean_obj_root]
      refine ⟨_, rfl, ?_⟩
      rw [lookupField_cleanFields_arr _ L (padSet [] t .vnull)
        (lookupField_setField _ L _) (padSet_ne_nil [] t .vnull) ?_]
      · rw [if_pos (padSet_nil_all_nil t), if_pos (padSet_all_nil _ t hA)]
      · intro x hx
        rcases mem_padSet [] t .vnull x hx with h | h | h
        · simp at h
        · rw [h]
          rfl
        · rw [h]
          rfl
    · rw [lset_obj_key_idx_arr _ L (padSet es f .vnull) t .vnull
        (by rw [hlk1, if_neg hA]), deepClean_obj_root]
      exact ⟨_, rfl, lookupField_cleanFields_arr _ L _ (lookupField_setField _ L _)
        (padSet_ne_nil _ t .vnull) hleaf2⟩
  obtain ⟨gs2, hg2, hlk2⟩ := he2
  have hM : handleMoveErrors (.obj efs) [Seg.key L, Seg.idx f] [Seg.key L, Seg.idx t]
      = (if truthy (jsNull ((es[t]?).getD .undefined)) = true
         then lset (if truthy (jsNull ((es[f]?).getD .undefined)) = true
                    then lset (.obj gs2) [Seg.key L, Seg.idx t]
                      (jsNull ((es[f]?).getD .undefined))
                    else .obj gs2) [Seg.key L, Seg.idx f] (jsNull ((es[t]?).getD .undefined))
         else (if truthy (jsNull ((es[f]?).getD .undefined)) = true
               then lset (.obj gs2) [Seg.key L, Seg.idx t] (jsNull ((es[f]?).getD .undefined))
               else .obj gs2)) := by
    simp only [handleMoveErrors, hef, het, he1, hg2]
  refine ⟨?_, ?_, ?_⟩
  · intro j hj hjf hjt
    rw [hM]
    by_cases hbf : truthy (jsNull ((es[f]?).getD .undefined)) = true <;>
      by_cases hbt : truthy (jsNull ((es[t]?).getD .undefined)) = true <;>
        simp only [hbf, hbt, if_true, if_false, Bool.false_eq_true] <;>
          by_cases hA2 : (padSet (padSet es f .vnull) t .vnull).all isNilV = true
    · have hnes : isNilV ((es[j]?).getD .undefined) = true := by
        have h0 := allNil_read _ j hA2
        rwa [padSet_getElem?_ne _ t j _ hjt, padSet_getElem?_ne _ f j _ hjf] at h0
      rw [lset_obj_key_idx_nonobj gs2 L t _ (by simp [hlk2, hA2, isObjectV]),
        lset_obj_key_idx_arr _ L (padSet [] t _) f _ (lookupField_setField gs2 L _),
        lgetD_obj_key_idx, lookupField_setField, childOf_arr_idx',
        padSet_getElem?_ne _ f j _ hjf, padSet_getElem?_ne _ t j _ hjt,
        jsNull_of_nil _ hnes]
      rfl
    · rw [lset_obj_key_idx_arr gs2 L _ t _ (by rw [hlk2, if_neg hA2]),
        lset_obj_key_idx_arr _ L _ f _ (lookupField_setField gs2 L _),
        lgetD_obj_key_idx, lookupField_setField, childOf_arr_idx',
        padSet_getElem?_ne _ f j _ hjf, padSet_getElem?_ne _ t j _ hjt,
        padSet_getElem?_ne _ t j _ hjt, padSet_getElem?_ne _ f j _ hjf]
    · have hnes : isNilV ((es[j]?).getD .undefined) = true := by
        have h0 := allNil_read _ j hA2
        rwa [padSet_getElem?_ne _ t j _ hjt, padSet_getElem?_ne _ f j _ hjf] at h0
      rw [lset_obj_key_idx_nonobj gs2 L t _ (by simp [hlk2, hA2, isObjectV]),
        lgetD_obj_key_idx, lookupField_setField, childOf_arr_idx',
        padSet_getElem?_ne _ t j _ hjt, jsNull_of_nil _ hnes]
      rfl
    · rw [lset_obj_key_idx_arr gs2 L _ t _ (by rw [hlk2, if_neg hA2]),
        lgetD_obj_key_idx, lookupField_setField, childOf_arr_idx',
        padSet_getElem?_ne _ t j _ hjt, padSet_getElem?_ne _ t j _ hjt,
        padSet_getElem?_ne _ f j _ hjf]
    · have hnes : isNilV ((es[j]?).getD .undefined) = true := by
        have h0 := allNil_read _ j hA2
        rwa [padSet_getElem?_ne _ t j _ hjt, padSet_getElem?_ne _ f j _ hjf] at h0
      rw [lset_obj_key_idx_nonobj gs2 L f _ (by simp [hlk2, hA2, isObjectV]),
        lgetD_obj_key_idx, lookupField_setField, childOf_arr_idx',
        padSet_getElem?_ne _ f j _ hjf, jsNull_of_nil _ hnes]
      rfl
    · rw [lset_obj_key_idx_arr gs2 L _ f _ (by rw [hlk2, if_neg hA2]),
        lgetD_obj_key_idx, lookupField_setField, childOf_arr_idx',
        padSet_getElem?_ne _ f j _ hjf, padSet_getElem?_ne _ t j _ hjt,
        padSet_getElem?_ne _ f j _ hjf]
    · have hnes : isNilV ((es[j]?).getD .undefined) = true := by
        have h0 := allNil_read _ j hA2
        rwa [padSet_getElem?_ne _ t j _ hjt, padSet_getElem?_ne _ f j _ hjf] at h0
      rw [lgetD_obj_key_idx, hlk2, if_pos hA2, childOf_noncontainer_idx _ j (by rfl),
        jsNull_of_nil _ hnes]
      rfl
    · rw [lgetD_obj_key_idx, hlk2, if_neg hA2, childOf_arr_idx',
        padSet_getElem?_ne _ t j _ hjt, padSet_getElem?_ne _ f j _ hjf]
  · intro hgf
    rw [hM]
    by_cases hbf : truthy (jsNull ((es[f]?).getD .undefined)) = true
    · by_cases hbt : truthy (jsNull ((es[t]?).getD .undefined)) = true <;>
        simp only [hbf, hbt, if_true, if_false, Bool.false_eq_true] <;>
          by_cases hA2 : (padSet (padSet es f .vnull) t .vnull).all isNilV = true
      · rw [lset_obj_key_idx_nonobj gs2 L t _ (by simp [hlk2, hA2, isObjectV]),
          lset_obj_key_idx_arr _ L (padSet [] t _) f _ (lookupField_setField gs2 L _),
          lgetD_obj_key_idx, lookupField_setField, childOf_arr_idx',
          padSet_getElem?_ne _ f t _ (Ne.symm hne), padSet_read_self, jsNull_jsNull]
      · rw [lset_obj_key_idx_arr gs2 L _ t _ (by rw [hlk2, if_neg hA2]),
          lset_obj_key_idx_arr _ L _ f _ (lookupField_setField gs2 L _),
          lgetD_obj_key_idx, lookupField_setField, childOf_arr_idx',
          padSet_getElem?_ne _ f t _ (Ne.symm hne), padSet_read_self, jsNull_jsNull]
      · rw [lset_obj_key_idx_nonobj gs2 L t _ (by simp [hlk2, hA2, isObjectV]),
          lgetD_obj_key_idx, lookupField_setField, childOf_arr_idx',
          padSet_read_self, jsNull_jsNull]
      · rw [lset_obj_key_idx_arr gs2 L _ t _ (by rw [hlk2, if_neg hA2]),
          lgetD_obj_key_idx, lookupField_setField, childOf_arr_idx',
          padSet_read_self, jsNull_jsNull]
    · have hnil : isNilV ((es[f]?).getD .undefined) = true := by
        rcases hgf with h | h
        · exact h
        · rw [truthy_jsNull] at hbf
          exact absurd h hbf
      have hrhs : jsNull ((es[f]?).getD .undefined) = .vnull := jsNull_of_nil _ hnil
      rw [hrhs]
      by_cases hbt : truthy (jsNull ((es[t]?).getD .undefined)) = true <;>
        simp only [hbt, show truthy Val.vnull = false from rfl, if_true, if_false,
          Bool.false_eq_true] <;>
          by_cases hA2 : (padSet (padSet es f .vnull) t .vnull).all isNilV = true
      · rw [lset_obj_key_idx_nonobj gs2 L f _ (by simp [hlk2, hA2, isObjectV]),
          lgetD_obj_key_idx, lookupField_setField, childOf_arr_idx',
          padSet_getElem?_ne _ f t _ (Ne.symm hne)]
        rfl
      · rw [lset_obj_key_idx_arr gs2 L _ f _ (by rw [hlk2, if_neg hA2]),
          lgetD_obj_key_idx, lookupField_setField, childOf_arr_idx',
          padSet_getElem?_ne _ f t _ (Ne.symm hne), padSet_read_self]
        rfl
      · rw [lgetD_obj_key_idx, hlk2, if_pos hA2, childOf_noncontainer_idx _ t (by rfl)]
        rfl
      · rw [lgetD_obj_key_idx, hlk2, if_neg hA2, childOf_arr_idx', padSet_read_self]
        rfl
  · intro hgt
    rw [hM]
    by_cases hbt : truthy (jsNull ((es[t]?).getD .undefined)) = true
    · by_cases hbf : truthy (jsNull ((es[f]?).getD .undefined)) = true <;>
        simp only [hbf, hbt, if_true, if_false, Bool.false_eq_true] <;>
          by_cases hA2 : (padSet (padSet es f .vnull) t .vnull).all isNilV = true
      · rw [lset_obj_key_idx_nonobj gs2 L t _ (by simp [hlk2, hA2, isObjectV]),
          lset_obj_key_idx_arr _ L (padSet [] t _) f _ (lookupField_setField gs2 L _),
          lgetD_obj_key_idx, lookupField_setField, childOf_arr_idx',
          padSet_read_self, jsNull_jsNull]
      · rw [lset_obj_key_idx_arr gs2 L _ t _ (by rw [hlk2, if_neg hA2]),
          lset_obj_key_idx_arr _ L _ f _ (lookupField_setField gs2 L _),
          lgetD_obj_key_idx, lookupField_setField, childOf_arr_idx',
          padSet_read_self, jsNull_jsNull]
      · rw [lset_obj_key_idx_nonobj gs2 L f _ (by simp [hlk2, hA2, isObjectV]),
          lgetD_obj_key_idx, lookupField_setField, childOf_arr_idx',
          padSet_read_self, jsNull_jsNull]
      · rw [lset_obj_key_idx_arr gs2 L _ f _ (by rw [hlk2, if_neg hA2]),
          lgetD_obj_key_idx, lookupField_setField, childOf_arr_idx',
          padSet_read_self, jsNull_jsNull]
    · have hnil : isNilV ((es[t]?).getD .undefined) = true := by
        rcases hgt with h | h
        · exact h
        · rw [truthy_jsNull] at hbt
          exact absurd h hbt
      have hrhs : jsNull ((es[t]?).getD .undefined) = .vnull := jsNull_of_nil _ hnil
      rw [hrhs]
      by_cases hbf : truthy (jsNull ((es[f]?).getD .undefined)) = true <;>
        simp only [hbf, show truthy Val.vnull = false from rfl, if_true, if_false,
          Bool.false_eq_true] <;>
          by_cases hA2 : (padSet (padSet es f .vnull) t .vnull).all isNilV = true
      · rw [lset_obj_key_idx_nonobj gs2 L t _ (by simp [hlk2, hA2, isObjectV]),
          lgetD_obj_key_idx, lookupField_setField, childOf_arr_idx',
          padSet_getElem?_ne _ t f _ hne]
        rfl
      · rw [lset_obj_key_idx_arr gs2 L _ t _ (by rw [hlk2, if_neg hA2]),
          lgetD_obj_key_idx, lookupField_setField, childOf_arr_idx',
          padSet_getElem?_ne _ t f _ hne, padSet_getElem?_ne _ t f _ hne,
          padSet_read_self]
        rfl
      · rw [lgetD_obj_key_idx, hlk2, if_pos hA2, childOf_noncontainer_idx _ f (by rfl)]
        rfl
      · rw [lgetD_obj_key_idx, hlk2, if_neg hA2, childOf_arr_idx',
          padSet_getElem?_ne _ t f _ hne, padSet_read_self]
        rfl

theorem handleMoveRequired_subset (R : List String) (E : Val) (pf pt : List Seg) (r : String)
    (hr : r ∈ handleMoveRequired R E pf pt) :
    r ∈ R ∨ r = joinPath pf ∨ r = joinPath pt := by
  simp only [handleMoveRequired] at hr
  split at hr
  · split at hr
    · rcases (mem_reqAdd _ _ _).mp hr with h | h
      · split at h
        · split at h
          · rcases (mem_reqAdd _ _ _).mp h with h2 | h2
            · exact Or.inl ((mem_reqRemove _ _ _).mp ((mem_reqRemove _ _ _).mp h2).1).1
            · exact Or.inr (Or.inr h2)
          · exact Or.inl ((mem_reqRemove _ _ _).mp ((mem_reqRemove _ _ _).mp h).1).1
        · exact Or.inl ((mem_reqRemove _ _ _).mp ((mem_reqRemove _ _ _).mp h).1).1
      · exact Or.inr (Or.inl h)
    · split at hr
      · split at hr
        · rcases (mem_reqAdd _ _ _).mp hr with h | h
          · exact Or.inl ((mem_reqRemove _ _ _).mp ((mem_reqRemove _ _ _).mp h).1).1
          · exact Or.inr (Or.inr h)
        · exact Or.inl ((mem_reqRemove _ _ _).mp ((mem_reqRemove _ _ _).mp hr).1).1
      · exact Or.inl ((mem_reqRemove _ _ _).mp ((mem_reqRemove _ _ _).mp hr).1).1
  · split at hr
    · split at hr
      · rcases (mem_reqAdd _ _ _).mp hr with h | h
        · exact Or.inl ((mem_reqRemove _ _ _).mp ((mem_reqRemove _ _ _).mp h).1).1
        · exact Or.inr (Or.inr h)
      · exact Or.inl ((mem_reqRemove _ _ _).mp ((mem_reqRemove _ _ _).mp hr).1).1
    · exact Or.inl ((mem_reqRemove _ _ _).mp ((mem_reqRemove _ _ _).mp hr).1).1

/-- C3 (amended): for in-range `from ≠ to` on a list stored at a single
key, `handleMove` writes back the directional single-item rotation
(item at `from` lands at `to`; between the endpoints, items shift one slot
towards `from`; everything else stays), and the two endpoint errors swap
positions — the error read at slot `to` afterwards is the error that was at
`from` and vice versa, while errors of merely-shifted slots are not
relocated; the two endpoint required-flags swap with their errors, and any
other tracked required key is preserved provided no tracked key has an
endpoint's dotted key as a plain string prefix (the sweep is by
`startsWith`, so e.g. moving index 1 of an 11-item list also clears a flag
at index 10). -/
theorem C3_move_rotates_and_swaps_endpoint_errors (km : KeyMgr) (s : FormState) (L : String)
    (f t time : Nat) (xs es : List Val) (efs : List (String × Val))
    (hne : f ≠ t) (hcg : s.cacheGet = []) (hce : s.cacheError = [])
    (hval : lgetD s.value [Seg.key L] (.arr []) = .arr xs)
    (hf : f < xs.length) (ht : t < xs.length)
    (herr : s.errors = .obj efs) (hes : lookupField efs L = .arr es)
    (hlen : es.length = xs.length)
    (hleaf : ∀ x ∈ es, isObjectV x = false)
    (hgf : isNilV ((es[f]?).getD .undefined) = true ∨ truthy ((es[f]?).getD .undefined) = true)
    (hgt : isNilV ((es[t]?).getD .undefined) = true ∨ truthy ((es[t]?).getD .undefined) = true)
    (hcoll : ∀ r ∈ s.requiredErrors,
      (strStartsWith r (joinPath [Seg.key L, Seg.idx f]) = true
        → r = joinPath [Seg.key L, Seg.idx f]) ∧
      (strStartsWith r (joinPath [Seg.key L, Seg.idx t]) = true
        → r = joinPath [Seg.key L, Seg.idx t])) :
    (handleMoveO ⟨km, s⟩ [Seg.key L] (f : Int) (t : Int) time).form.value
        = lset s.value [Seg.key L] (.arr (moveList xs (f : Int) (t : Int))) ∧
    (moveList xs (f : Int) (t : Int))[t]? = xs[f]? ∧
    (∀ j, j < f → j < t → (moveList xs (f : Int) (t : Int))[j]? = xs[j]?) ∧
    (∀ j, f < j → t < j → j < xs.length → (moveList xs (f : Int) (t : Int))[j]? = xs[j]?) ∧
    (∀ j, t < j → j ≤ f → (moveList xs (f : Int) (t : Int))[j]? = xs[j - 1]?) ∧
    (∀ j, f ≤ j → j < t → (moveList xs (f : Int) (t : Int))[j]? = xs[j + 1]?) ∧
    (getErrorO (handleMoveO ⟨km, s⟩ [Seg.key L] (f : Int) (t : Int) time).form
        [Seg.key L, Seg.idx t]).1 = jsNull ((es[f]?).getD .undefined) ∧
    (getErrorO (handleMoveO ⟨km, s⟩ [Seg.key L] (f : Int) (t : Int) time).form
        [Seg.key L, Seg.idx f]).1 = jsNull ((es[t]?).getD .undefined) ∧
    (∀ j, j < es.length → j ≠ f → j ≠ t →
      (getErrorO (handleMoveO ⟨km, s⟩ [Seg.key L] (f : Int) (t : Int) time).form
        [Seg.key L, Seg.idx j]).1 = jsNull ((es[j]?).getD .undefined)) ∧
    (joinPath [Seg.key L, Seg.idx t]
        ∈ (handleMoveO ⟨km, s⟩ [Seg.key L] (f : Int) (t : Int) time).form.requiredErrors ↔
      (truthy ((es[f]?).getD .undefined) = true
        ∧ joinPath [Seg.key L, Seg.idx f] ∈ s.requiredErrors)) ∧
    (joinPath [Seg.key L, Seg.idx f]
        ∈ (handleMoveO ⟨km, s⟩ [Seg.key L] (f : Int) (t : Int) time).form.requiredErrors ↔
      (truthy ((es[t]?).getD .undefined) = true
        ∧ joinPath [Seg.key L, Seg.idx t] ∈ s.requiredErrors)) ∧
    (∀ r ∈ s.requiredErrors, r ≠ joinPath [Seg.key L, Seg.idx f]
      → r ≠ joinPath [Seg.key L, Seg.idx t]
      → r ∈ (handleMoveO ⟨km, s⟩ [Seg.key L] (f : Int) (t : Int) time).form.requiredErrors) ∧
    (∀ r, r ∈ (handleMoveO ⟨km, s⟩ [Seg.key L] (f : Int) (t : Int) time).form.requiredErrors
      → r ∈ s.requiredErrors ∨ r = joinPath [Seg.key L, Seg.idx f]
        ∨ r = joinPath [Seg.key L, Seg.idx t]) := by
  have hkne : joinPath ([Seg.key L] ++ [Seg.idx f]) ≠ joinPath ([Seg.key L] ++ [Seg.idx t]) :=
    joinPath_key_idx_ne L f t hne
  obtain ⟨hdk, hdv, hde, hdr, hdc⟩ :=
    handleMoveO_decomp km s [Seg.key L] f t time xs hne hcg hce hval hf ht hkne
  have happf : ([Seg.key L] ++ [Seg.idx f] : List Seg) = [Seg.key L, Seg.idx f] := rfl
  have happt : ([Seg.key L] ++ [Seg.idx t] : List Seg) = [Seg.key L, Seg.idx t] := rfl
  rw [happf, happt] at hde hdr
  rw [happf, happt] at hkne
  have hfe : f < es.length := by omega
  have hte : t < es.length := by omega
  obtain ⟨hem1, hem2, hem3⟩ := handleMoveErrors_spec efs L es f t hes hleaf hfe hte hne
  have hefv : lgetD s.errors [Seg.key L, Seg.idx f] .vnull
      = jsNull ((es[f]?).getD .undefined) := by
    rw [herr, lgetD_obj_key_idx, hes, childOf_arr_idx']
  have hetv : lgetD s.errors [Seg.key L, Seg.idx t] .vnull
      = jsNull ((es[t]?).getD .undefined) := by
    rw [herr, lgetD_obj_key_idx, hes, childOf_arr_idx']
  obtain ⟨hhr1, hhr2, hhr3⟩ := handleMoveRequired_spec s.requiredErrors s.errors
    [Seg.key L, Seg.idx f] [Seg.key L, Seg.idx t] hkne
  obtain ⟨hms1, hms2, hms3, hms4, hms5⟩ := moveList_spec xs f t hf ht hne
  refine ⟨hdv, hms1, hms2, hms3, hms4, hms5, ?_, ?_, ?_, ?_, ?_, ?_, ?_⟩
  · rw [getErrorO_fst _ _ hdc, hde, herr]
    exact hem2 hgf
  · rw [getErrorO_fst _ _ hdc, hde, herr]
    exact hem3 hgt
  · intro j hj hjf hjt
    rw [getErrorO_fst _ _ hdc, hde, herr]
    exact hem1 j hj hjf hjt
  · rw [hdr]
    rw [hefv, truthy_jsNull] at hhr1
    exact hhr1
  · rw [hdr]
    rw [hetv, truthy_jsNull] at hhr2
    exact hhr2
  · intro r hr hrf hrt
    rw [hdr]
    have hsf : strStartsWith r (joinPath [Seg.key L, Seg.idx f]) = false := by
      cases hsw : strStartsWith r (joinPath [Seg.key L, Seg.idx f]) with
      | false => rfl
      | true => exact absurd ((hcoll r hr).1 hsw) hrf
    have hst : strStartsWith r (joinPath [Seg.key L, Seg.idx t]) = false := by
      cases hsw : strStartsWith r (joinPath [Seg.key L, Seg.idx t]) with
      | false => rfl
      | true => exact absurd ((hcoll r hr).2 hsw) hrt
    exact (hhr3 r hsf hst).mpr hr
  · intro r hr
    rw [hdr] at hr
    exact handleMoveRequired_subset _ _ _ _ r hr

/-- Witness for C3 at the spec's own example: `[A,B,C,D]` with an error and
required flag on index 0, `move(0, 2)` yields `[B,C,A,D]` with the error
and flag now on index 2. -/
theorem C3_move_rotates_and_swaps_endpoint_errors_witness :
    (handleMoveO ⟨⟨[], 0⟩, ⟨.obj [("items", .arr [.str "A", .str "B", .str "C", .str "D"])],
        .obj [("items", .arr [.str "E0", .vnull, .vnull, .vnull])], ["items.0"], [], [],
        false, 0, 0, 0, none, []⟩⟩ [Seg.key "items"] 0 2 7).form.value
      = .obj [("items", .arr [.str "B", .str "C", .str "A", .str "D"])] ∧
    (getErrorO (handleMoveO ⟨⟨[], 0⟩, ⟨.obj [("items",
        .arr [.str "A", .str "B", .str "C", .str "D"])],
        .obj [("items", .arr [.str "E0", .vnull, .vnull, .vnull])], ["items.0"], [], [],
        false, 0, 0, 0, none, []⟩⟩ [Seg.key "items"] 0 2 7).form
        [Seg.key "items", Seg.idx 2]).1 = .str "E0" ∧
    joinPath [Seg.key "items", Seg.idx 2]
      ∈ (handleMoveO ⟨⟨[], 0⟩, ⟨.obj [("items",
          .arr [.str "A", .str "B", .str "C", .str "D"])],
          .obj [("items", .arr [.str "E0", .vnull, .vnull, .vnull])], ["items.0"], [], [],
          false, 0, 0, 0, none, []⟩⟩ [Seg.key "items"] 0 2 7).form.requiredErrors := by
  have h := C3_move_rotates_and_swaps_endpoint_errors ⟨[], 0⟩
    ⟨.obj [("items", .arr [.str "A", .str "B", .str "C", .str "D"])],
      .obj [("items", .arr [.str "E0", .vnull, .vnull, .vnull])], ["items.0"], [], [],
      false, 0, 0, 0, none, []⟩ "items" 0 2 7
    [.str "A", .str "B", .str "C", .str "D"] [.str "E0", .vnull, .vnull, .vnull]
    [("items", .arr [.str "E0", .vnull, .vnull, .vnull])]
    (by decide) rfl rfl (by decide) (by decide) (by decide) rfl (by decide) (by decide)
    (by decide) (by decide) (by decide) (by decide)
  refine ⟨h.1.trans (by decide), (h.2.2.2.2.2.2.1).trans (by decide), ?_⟩
  exact (h.2.2.2.2.2.2.2.2.2.1).mpr ⟨by decide, by decide⟩

/-- C3 counterexample to the claim as stated: with 11 items and required
flags at indices 1 and 10, `move(1, 2)` also deletes the flag at index 10
(the sweep is by plain string prefix, `"items.10".startsWith("items.1")`),
although the error at index 10 stays in place — so more than the two
endpoint flags change. -/
theorem C3_counterexample :
    "items.10" ∈ (⟨.obj [("items", .arr [.str "a", .str "b", .str "c", .str "d", .str "e",
        .str "f", .str "g", .str "h", .str "i", .str "j", .str "k"])],
        .obj [("items", .arr [.vnull, .str "e1", .vnull, .vnull, .vnull, .vnull, .vnull,
          .vnull, .vnull, .vnull, .str "e10"])],
        ["items.1", "items.10"], [], [], false, 0, 0, 0, none, []⟩
        : FormState).requiredErrors ∧
    "items.10" ∉ (handleMoveO ⟨⟨[], 0⟩, ⟨.obj [("items", .arr [.str "a", .str "b", .str "c",
        .str "d", .str "e", .str "f", .str "g", .str "h", .str "i", .str "j", .str "k"])],
        .obj [("items", .arr [.vnull, .str "e1", .vnull, .vnull, .vnull, .vnull, .vnull,
          .vnull, .vnull, .vnull, .str "e10"])],
        ["items.1", "items.10"], [], [], false, 0, 0, 0, none,
        []⟩⟩ [Seg.key "items"] 1 2 7).form.requiredErrors ∧
    (getErrorO (handleMoveO ⟨⟨[], 0⟩, ⟨.obj [("items", .arr [.str "a", .str "b", .str "c",
        .str "d", .str "e", .str "f", .str "g", .str "h", .str "i", .str "j", .str "k"])],
        .obj [("items", .arr [.vnull, .str "e1", .vnull, .vnull, .vnull, .vnull, .vnull,
          .vnull, .vnull, .vnull, .str "e10"])],
        ["items.1", "items.10"], [], [], false, 0, 0, 0, none,
        []⟩⟩ [Seg.key "items"] 1 2 7).form [Seg.key "items", Seg.idx 10]).1
      = .str "e10" := by
  decide
